import Mathlib

/-!
# Verification of the openclaw memory-qdrant-nebula text-distillation core

Shallow embedding of the capture/classification engine (triggers.ts),
the entity and relation extractor (entity-extractor.ts), and the hybrid
score-fusion engine (hybrid-search.ts) of the memory-qdrant-nebula plugin.

Modelling conventions:
* JavaScript numbers are modelled as exact rationals (`ℚ`); all score
  constants in the source (0.5, 0.7, 0.1, ...) are decimal literals,
  rendered here as the corresponding rationals.
* JavaScript strings are Lean `String`s; `String.prototype.length`
  (UTF-16 code units) is modelled by `utf16Length`.
* Regular-expression matching is performed by the host JavaScript engine;
  the *results* of the regex layer (captured groups, per-pattern boolean
  tests) are therefore inputs to the embedded pipeline, bundled in oracle
  structures (`RegexMatches`, `ImportanceTests`, trigger test functions).
  Everything downstream of the regex layer is translated from the source.
* Fallible collaborator calls (`await` on a client that may throw) are
  modelled with `Except Unit`; a `try { .. } catch { .. }` block becomes a
  `match` on the `Except` value.
-/

namespace OpenClaw

/-- Modelled from the spec: `SupportedLanguage` is declared in config.ts,
which is not among the provided sources; the spec fixes the enum `en | ru | cs`. -/
inductive SupportedLanguage : Type
  | en
  | ru
  | cs
deriving DecidableEq, Repr

/-- Modelled from the spec: `MemoryCategory` is declared in config.ts,
which is not among the provided sources; the spec fixes the enum
`preference | fact | decision | entity | other`. -/
inductive MemoryCategory : Type
  | preference
  | fact
  | decision
  | entity
  | other
deriving DecidableEq, Repr

/-- Modelled from the spec: `EntityType` is declared in config.ts, which is
not among the provided sources; the spec fixes the enum
`person | organization | location | concept`. -/
inductive EntityType : Type
  | person
  | organization
  | location
  | concept
deriving DecidableEq, Repr

/-- A scalar value of a TypeScript property bag
(`Record<string, string | number | boolean>`). -/
inductive PropValue : Type
  | str (s : String)
  | num (q : ℚ)
  | bool (b : Bool)
deriving DecidableEq, Repr

-- ============================================================================
-- JavaScript string primitives
-- ============================================================================

/-- JavaScript `String.prototype.length`: the number of UTF-16 code units
(code points above U+FFFF count twice). -/
def utf16Length (s : String) : Nat :=
  s.data.foldl (fun n c => n + (if c.toNat < 0x10000 then 1 else 2)) 0

/-- Does `pat` occur as a contiguous sublist of `l`?  (Helper for
JavaScript `String.prototype.includes`.) -/
def containsSublist (l pat : List Char) : Bool :=
  if pat.isPrefixOf l then true
  else
    match l with
    | [] => false
    | _ :: t => containsSublist t pat

/-- JavaScript `text.includes(pat)`. -/
def jsIncludes (s pat : String) : Bool :=
  containsSublist s.data pat.data

/-- JavaScript `text.startsWith(pat)`. -/
def jsStartsWith (s pat : String) : Bool :=
  pat.data.isPrefixOf s.data

/-- JavaScript `String.prototype.toLowerCase`, restricted to the simple
one-to-one case mappings of the scripts this plugin handles (ASCII Latin,
Latin-1 supplement, Latin Extended-A even/odd pairs, Cyrillic). -/
def jsToLowerChar (c : Char) : Char :=
  let n := c.toNat
  if 0x41 ≤ n ∧ n ≤ 0x5A then Char.ofNat (n + 0x20)
  else if 0xC0 ≤ n ∧ n ≤ 0xDE ∧ n ≠ 0xD7 then Char.ofNat (n + 0x20)
  else if 0x100 ≤ n ∧ n ≤ 0x177 ∧ n % 2 = 0 then Char.ofNat (n + 1)
  else if 0x410 ≤ n ∧ n ≤ 0x42F then Char.ofNat (n + 0x20)
  else if 0x400 ≤ n ∧ n ≤ 0x40F then Char.ofNat (n + 0x50)
  else c

/-- JavaScript `s.toLowerCase()` (same script restriction as `jsToLowerChar`). -/
def jsToLower (s : String) : String :=
  ⟨s.data.map jsToLowerChar⟩

/-- JavaScript `String.prototype.toUpperCase` on a single character
(same script restriction as `jsToLowerChar`). -/
def jsToUpperChar (c : Char) : Char :=
  let n := c.toNat
  if 0x61 ≤ n ∧ n ≤ 0x7A then Char.ofNat (n - 0x20)
  else if 0xE0 ≤ n ∧ n ≤ 0xFE ∧ n ≠ 0xF7 then Char.ofNat (n - 0x20)
  else if 0x101 ≤ n ∧ n ≤ 0x177 ∧ n % 2 = 1 then Char.ofNat (n - 1)
  else if 0x430 ≤ n ∧ n ≤ 0x44F then Char.ofNat (n - 0x20)
  else if 0x450 ≤ n ∧ n ≤ 0x45F then Char.ofNat (n - 0x50)
  else c

/-- The ASCII part of the JavaScript `\s` character class (sufficient for
the whitespace handling done by the extractor). -/
def jsWhitespaceChar (c : Char) : Bool :=
  c = ' ' ∨ c = '\t' ∨ c = '\n' ∨ c = '\r' ∨ c = '\x0b' ∨ c = '\x0c'

/-- JavaScript `s.trim()` (over the modelled whitespace class). -/
def jsTrim (s : String) : String :=
  ⟨((s.data.dropWhile jsWhitespaceChar).reverse.dropWhile jsWhitespaceChar).reverse⟩

/-- JavaScript `s.split(/\s+/)` on an already-trimmed string: maximal runs
of non-whitespace characters. -/
def splitWhitespace (s : String) : List String :=
  (s.split jsWhitespaceChar).filter (fun w => w ≠ "")

/-- JavaScript `s.split(/[\s-]+/)`: maximal runs of characters that are
neither whitespace nor a hyphen. -/
def splitWhitespaceOrHyphen (s : String) : List String :=
  (s.split (fun c => jsWhitespaceChar c || c = '-')).filter (fun w => w ≠ "")

-- ============================================================================
-- triggers.ts — Language Detection  (unnamed part_002 lines 140-151)
-- ============================================================================

/-- `CYRILLIC_PATTERN = /[Ѐ-ӿ]/` applied to a single character. -/
def isCyrillicCodePoint (c : Char) : Bool :=
  decide (0x400 ≤ c.toNat ∧ c.toNat ≤ 0x4FF)

/-- The character set of `CZECH_PATTERN = /[ěščřžýáíéúůďťňó]/i` (lowercase). -/
def czechDiacritics : List Char :=
  ['ě', 'š', 'č', 'ř', 'ž', 'ý', 'á', 'í', 'é', 'ú', 'ů', 'ď', 'ť', 'ň', 'ó']

/-- Uppercase forms matched by the `/i` flag of `CZECH_PATTERN`. -/
def czechDiacriticsUpper : List Char :=
  ['Ě', 'Š', 'Č', 'Ř', 'Ž', 'Ý', 'Á', 'Í', 'É', 'Ú', 'Ů', 'Ď', 'Ť', 'Ň', 'Ó']

/-- Membership in `CZECH_PATTERN` (case-insensitive). -/
def isCzechDiacritic (c : Char) : Bool :=
  czechDiacritics.contains c || czechDiacriticsUpper.contains c

/-- `detectLanguage` (triggers.ts): Cyrillic presence wins, then Czech
diacritics, then the English default. -/
def detectLanguage (text : String) : SupportedLanguage :=
  if text.data.any isCyrillicCodePoint then .ru
  else if text.data.any isCzechDiacritic then .cs
  else .en

-- ============================================================================
-- triggers.ts — Capture Logic  (unnamed part_002 lines 160-208)
-- ============================================================================

/-- The `codeIndicators` array of `shouldCapture`. -/
def codeIndicators : List String :=
  ["```", "const ", "function ", "=> \x7b", "import ", "export ", "class ", "var ", "let "]

/-- `shouldCapture` (triggers.ts).  `trig lang text` stands for
`TRIGGERS_BY_LANGUAGE[lang].some((r) => r.test(text))`: the per-language
trigger regex lists are evaluated by the host regex engine and enter the
model as a boolean test. -/
def shouldCapture (trig : SupportedLanguage → String → Bool) (text : String)
    (languages : List SupportedLanguage) : Bool :=
  if utf16Length text < 10 ∨ 2000 < utf16Length text then false
  else if jsIncludes text "<relevant-memories>" then false
  else if jsStartsWith text "<" && jsIncludes text "</" then false
  else if jsIncludes text "**" && jsIncludes text "\n-" then false
  else if 3 < (text.data.filter (fun c => decide (0x1F300 ≤ c.toNat ∧ c.toNat ≤ 0x1F9FF))).length then false
  else
    let codeTokenCount := (codeIndicators.filter (fun ind => jsIncludes text ind)).length
    let codeRatio : ℚ := (codeTokenCount : ℚ) / (codeIndicators.length : ℚ)
    if (1 : ℚ)/2 < codeRatio ∨ jsIncludes text "```" = true then false
    else languages.any (fun lang => trig lang text)

-- ============================================================================
-- triggers.ts — Importance Scoring  (unnamed part_002 lines 243-283)
-- ============================================================================

/-- The six regex tests of `calculateImportance`, evaluated by the host
regex engine (one field per `RegExp.prototype.test` call in the source). -/
structure ImportanceTests : Type where
  importantKeyword : String → Bool
  memoryCommandLatin : String → Bool
  memoryCommandCyrillic : String → Bool
  contactInfo : String → Bool
  nameIntro : String → Bool
  decisionKeyword : String → Bool
  relationshipKeyword : String → Bool

/-- `calculateImportance` (triggers.ts): base 0.5, fixed increments per
signal, entity-density bonus `min(entityCount * 0.05, 0.15)` (skipped when
`entityCount` is `undefined` or `0`, both falsy in JS), capped at 1.0. -/
def calculateImportance (T : ImportanceTests) (text : String) (entityCount : Option Nat) : ℚ :=
  let score : ℚ := 1/2
  let score := if T.importantKeyword text then score + 1/5 else score
  let score := if T.memoryCommandLatin text || T.memoryCommandCyrillic text then score + 3/20 else score
  let score := if T.contactInfo text then score + 1/10 else score
  let score := if T.nameIntro text then score + 1/10 else score
  let score := if T.decisionKeyword text then score + 1/10 else score
  let score := if T.relationshipKeyword text then score + 1/10 else score
  let score :=
    match entityCount with
    | some n => if 0 < n then score + min ((n : ℚ) * (1/20)) (3/20) else score
    | none => score
  min score 1

-- ============================================================================
-- Claim theorems: capture module
-- ============================================================================

/-- **C6.** For every text `T` and enabled-language set `L`,
`shouldCapture T L` returns `false` whenever the UTF-16 length of `T` is
below 10 or above the configured upper bound 2000, and also whenever `T`
contains the recall-injection delimiter `<relevant-memories>` — in both
cases regardless of the trigger tests of any enabled language. -/
theorem shouldCapture_rejects_short_long_and_injected
    (trig : SupportedLanguage → String → Bool) (text : String)
    (languages : List SupportedLanguage) :
    ((utf16Length text < 10 ∨ 2000 < utf16Length text) →
      shouldCapture trig text languages = false) ∧
    (jsIncludes text "<relevant-memories>" = true →
      shouldCapture trig text languages = false) := by
  constructor
  · intro h
    unfold shouldCapture
    rw [if_pos h]
  · intro h
    unfold shouldCapture
    by_cases hlen : utf16Length text < 10 ∨ 2000 < utf16Length text
    · rw [if_pos hlen]
    · rw [if_neg hlen, h, if_pos rfl]

set_option maxHeartbeats 2000000 in
/-- Witness for C6: the 2-character text "hi" is rejected, and a text
containing the recall-injection delimiter is rejected, both under a
trigger oracle that accepts everything. -/
theorem shouldCapture_rejects_witness :
    shouldCapture (fun _ _ => true) "hi" [SupportedLanguage.en] = false ∧
    shouldCapture (fun _ _ => true)
      "ab<relevant-memories>" [SupportedLanguage.en] = false := by
  constructor
  · exact (shouldCapture_rejects_short_long_and_injected (fun _ _ => true) "hi"
      [SupportedLanguage.en]).1 (Or.inl (by decide))
  · exact (shouldCapture_rejects_short_long_and_injected (fun _ _ => true)
      "ab<relevant-memories>" [SupportedLanguage.en]).2 (by decide)

/-- **C7.** `calculateImportance` equals the minimum of 1 and 0.5 plus a
sum of independent increments — +0.20 for importance markers, +0.15 for
memory commands, +0.10 for contact info, +0.10 for a name introduction,
+0.10 for decision verbs, +0.10 for relationship keywords, and
`min(entityCount * 0.05, 0.15)` for entity density — each increment
depending only on its own predicate, so the result is order-independent
(additive and commutative). -/
theorem calculateImportance_additive (T : ImportanceTests) (text : String)
    (entityCount : Option Nat) :
    calculateImportance T text entityCount =
      min 1 ((1 : ℚ)/2
        + (if T.importantKeyword text then 1/5 else 0)
        + (if T.memoryCommandLatin text || T.memoryCommandCyrillic text then 3/20 else 0)
        + (if T.contactInfo text then 1/10 else 0)
        + (if T.nameIntro text then 1/10 else 0)
        + (if T.decisionKeyword text then 1/10 else 0)
        + (if T.relationshipKeyword text then 1/10 else 0)
        + min (((entityCount.getD 0 : Nat) : ℚ) * (1/20)) (3/20)) := by
  have hite : ∀ (p : Prop) (inst : Decidable p) (x a : ℚ),
      (@ite ℚ p inst (x + a) x) = x + (@ite ℚ p inst a 0) := by
    intro p inst x a
    split <;> simp
  have h0 : min (0 : ℚ) (3/20) = 0 := min_eq_left (by norm_num)
  rcases entityCount with - | n
  · simp only [calculateImportance, hite, Option.getD_none, Nat.cast_zero, zero_mul]
    rw [h0, add_zero, min_comm]
  · simp only [calculateImportance, hite, Option.getD_some]
    by_cases hn : 0 < n
    · rw [if_pos hn, min_comm]
    · have hn0 : n = 0 := Nat.eq_zero_of_not_pos hn
      subst hn0
      simp only [Nat.cast_zero, zero_mul]
      rw [if_neg hn, h0, add_zero, min_comm]

/-- **C8.** `detectLanguage` returns `ru` if the text contains any code
point of the Cyrillic block; otherwise `cs` if it contains any character
of the fixed Czech-diacritic set; otherwise `en` — evaluated in exactly
that priority order. -/
theorem detectLanguage_priority (text : String) :
    ((∃ c ∈ text.data, isCyrillicCodePoint c = true) → detectLanguage text = .ru) ∧
    ((¬ ∃ c ∈ text.data, isCyrillicCodePoint c = true) →
      (∃ c ∈ text.data, isCzechDiacritic c = true) → detectLanguage text = .cs) ∧
    ((¬ ∃ c ∈ text.data, isCyrillicCodePoint c = true) →
      (¬ ∃ c ∈ text.data, isCzechDiacritic c = true) → detectLanguage text = .en) := by
  unfold detectLanguage
  refine ⟨fun h => ?_, fun h₁ h₂ => ?_, fun h₁ h₂ => ?_⟩
  · rw [if_pos (List.any_eq_true.mpr h)]
  · rw [if_neg ?_, if_pos (List.any_eq_true.mpr h₂)]
    intro hc
    exact h₁ (List.any_eq_true.mp hc)
  · rw [if_neg ?_, if_neg ?_]
    · intro hc
      exact h₂ (List.any_eq_true.mp hc)
    · intro hc
      exact h₁ (List.any_eq_true.mp hc)

set_option maxHeartbeats 2000000 in
/-- Witness for C8: a Cyrillic text is classified `ru`, a text with a
Czech diacritic but no Cyrillic is classified `cs`. -/
theorem detectLanguage_priority_witness :
    detectLanguage "Привет" = .ru ∧ detectLanguage "Ahoj, světe" = .cs := by
  constructor
  · exact (detectLanguage_priority "Привет").1 (by decide)
  · exact (detectLanguage_priority "Ahoj, světe").2.1 (by decide) (by decide)

-- ============================================================================
-- entity-extractor.ts (unnamed part_003) — Data model
-- ============================================================================

/-- `ExtractedEntity` (entity-extractor.ts). -/
structure ExtractedEntity : Type where
  type : EntityType
  name : String
  properties : List (String × PropValue)
  confidence : ℚ
deriving DecidableEq, Repr

/-- The `relationType` union of `ExtractedRelation` (entity-extractor.ts). -/
inductive RelationType : Type
  | knows
  | works_at
  | belongs_to
  | related_to
  | lives_in
  | uses
  | manages
  | studies_at
  | interested_in
deriving DecidableEq, Repr

/-- `ExtractedRelation` (entity-extractor.ts). -/
structure ExtractedRelation : Type where
  sourceType : EntityType
  sourceName : String
  targetType : EntityType
  targetName : String
  relationType : RelationType
  properties : List (String × PropValue)
  confidence : ℚ
deriving DecidableEq, Repr

/-- The surface of the Az.js morphology provider used by the extractor
(morph.ts wraps the external Az.js dictionary; its readiness flag and
per-word lookups are inputs to the embedded pipeline). -/
structure Morph : Type where
  ready : Bool
  normalize : String → String
  isFalsePositiveName : String → Bool

/-- The results of the host regex engine on a fixed input text: the
captured raw strings for each pattern family of entity-extractor.ts, in
match order.

* `personRaw` — captures of PERSON_PATTERNS_EN/RU/CS collected by
  `allMatches`, flattened in pattern, match, and group order (the Russian
  enumeration pattern contributes up to three groups per match, filtered
  by `Boolean`).
* `orgRaw`, `locationRaw`, `conceptRaw` — the group-1 captures of the
  ORGANIZATION/LOCATION/CONCEPT pattern families.
* `phoneCaptures`, `emailCaptures` — the group-1 captures of
  PHONE_PATTERN / EMAIL_PATTERN via `allMatches`.
* `roleCapture` — the first group-1 capture of ROLE_PATTERNS, if any.
* `conceptSplit` — the host evaluation of
  `name.split(/\s+(?:и|and|,)\s+/)` used by `extractConcepts`. -/
structure RegexMatches : Type where
  personRaw : List String
  orgRaw : List String
  locationRaw : List String
  conceptRaw : List String
  phoneCaptures : List String
  emailCaptures : List String
  roleCapture : Option String
  conceptSplit : String → List String

-- ============================================================================
-- entity-extractor.ts — Name validation and normalization helpers
-- ============================================================================

/-- The `commonFalsePositives` stop-list of `validateAndNormalizePerson`. -/
def commonFalsePositives : List String :=
  ["это", "то", "the", "a", "an", "that", "this", "после", "может", "однако",
   "поэтому", "также", "потому", "кроме", "около", "между", "через", "перед",
   "возле", "вместо", "кстати", "например", "конечно", "наверное", "возможно",
   "пожалуй", "видимо", "очевидно", "правда", "сегодня", "завтра", "вчера"]

/-- `/^[A-ZА-ЯЁ]/.test(word)`: the word starts with an uppercase Latin or
Cyrillic letter. -/
def startsUppercaseLetter (word : String) : Bool :=
  match word.data with
  | [] => false
  | c :: _ =>
    decide ((0x41 ≤ c.toNat ∧ c.toNat ≤ 0x5A) ∨ (0x410 ≤ c.toNat ∧ c.toNat ≤ 0x42F) ∨ c = 'Ё')

/-- `/[А-ЯЁа-яё]/.test(word)`: the word contains a Cyrillic letter. -/
def containsCyrillicLetter (word : String) : Bool :=
  word.data.any fun c =>
    decide ((0x410 ≤ c.toNat ∧ c.toNat ≤ 0x44F) ∨ c = 'ё' ∨ c = 'Ё')

/-- `capitalize` (entity-extractor.ts): uppercase the first character. -/
def capitalize (s : String) : String :=
  match s.data with
  | [] => s
  | c :: rest => ⟨jsToUpperChar c :: rest⟩

/-- One word step of the `for (const word of words)` loop of
`validateAndNormalizePerson`; `none` models the early `return null`. -/
def personWordStep (m : Morph) (acc : Option (List String)) (word : String) :
    Option (List String) :=
  match acc with
  | none => none
  | some parts =>
    if startsUppercaseLetter word = false then none
    else if m.ready = true ∧ containsCyrillicLetter word = true then
      if m.isFalsePositiveName word then none
      else some (parts ++ [capitalize (m.normalize word)])
    else some (parts ++ [word])

/-- `validateAndNormalizePerson` (entity-extractor.ts). -/
def validateAndNormalizePerson (m : Morph) (name : String) : Option String :=
  let trimmed := jsTrim name
  if utf16Length trimmed < 2 then none
  else if commonFalsePositives.contains (jsToLower trimmed) then none
  else
    let words := splitWhitespace trimmed
    (words.foldl (personWordStep m) (some [])).map (String.intercalate " ")

/-- The quote characters stripped by `normalizeOrgName` (`/[«»""]/g`). -/
def orgQuoteChars : List Char := ['«', '»', '"']

/-- `normalizeOrgName` (entity-extractor.ts). -/
def normalizeOrgName (name : String) : String :=
  jsTrim ⟨(jsTrim name).data.filter (fun c => !(orgQuoteChars.contains c))⟩

/-- `validateAndNormalizeLocation` (entity-extractor.ts). -/
def validateAndNormalizeLocation (m : Morph) (name : String) : Option String :=
  let trimmed := jsTrim name
  if utf16Length trimmed < 2 then none
  else
    let words := splitWhitespaceOrHyphen trimmed
    let normalizedParts := words.map fun word =>
      if m.ready = true ∧ containsCyrillicLetter word = true then capitalize (m.normalize word)
      else word
    let separator := if jsIncludes trimmed "-" then "-" else " "
    some (String.intercalate separator normalizedParts)

/-- `phoneMatch[1].replace(/[-.\s]/g, "")` — strip separators from a
captured phone number. -/
def stripPhoneSeparators (s : String) : String :=
  ⟨s.data.filter (fun c => !(c = '-' || c = '.' || jsWhitespaceChar c))⟩

/-- Key lookup in an insertion-ordered string-keyed association list (the
model of `Map.prototype.get` / `Map.prototype.has` and of property-bag
key tests). -/
def lookupKey {β : Type} (k : String) : List (String × β) → Option β
  | [] => none
  | (a, b) :: t => if a = k then some b else lookupKey k t

/-- JavaScript property-bag assignment `obj[k] = v` on an insertion-ordered
record: overwrite in place when the key exists, append otherwise. -/
def setProp (props : List (String × PropValue)) (k : String) (v : PropValue) :
    List (String × PropValue) :=
  if (lookupKey k props).isSome then
    props.map (fun p => if p.1 = k then (k, v) else p)
  else props ++ [(k, v)]

-- ============================================================================
-- entity-extractor.ts — Per-type extraction
-- ============================================================================

/-- `candidates.set(key, e)` guarded by `!candidates.has(key)`: the
insert-if-absent step shared by all four per-type extractors. -/
def addCandidate (cands : List (String × ExtractedEntity)) (key : String)
    (e : ExtractedEntity) : List (String × ExtractedEntity) :=
  if (lookupKey key cands).isSome then cands else cands ++ [(key, e)]

/-- The contact-attachment block of `extractPersons`: write the first
phone capture, first email capture, and first role capture of the text
into the first person entity's property bag. -/
def attachContactInfo (rx : RegexMatches) (firstPerson : ExtractedEntity) : ExtractedEntity :=
  let firstPerson := match rx.phoneCaptures.head? with
    | some p =>
      { firstPerson with
          properties := setProp firstPerson.properties "phone" (.str (stripPhoneSeparators p)) }
    | none => firstPerson
  let firstPerson := match rx.emailCaptures.head? with
    | some e =>
      { firstPerson with
          properties := setProp firstPerson.properties "email" (.str (jsToLower e)) }
    | none => firstPerson
  match rx.roleCapture with
  | some r =>
    { firstPerson with
        properties := setProp firstPerson.properties "role" (.str (jsTrim r)) }
  | none => firstPerson

/-- `extractPersons` (entity-extractor.ts): validate and normalize each raw
capture, dedup by lowercased name, then attach phone/email/role of the
whole text to the first person entity. -/
def extractPersons (m : Morph) (rx : RegexMatches) : List ExtractedEntity :=
  let candidates := rx.personRaw.foldl (fun cands rawName =>
    match validateAndNormalizePerson m rawName with
    | none => cands
    | some name =>
      addCandidate cands (jsToLower name)
        { type := .person, name := name, properties := [], confidence := 4/5 }) []
  match candidates.map Prod.snd with
  | [] => []
  | firstPerson :: rest => attachContactInfo rx firstPerson :: rest

/-- The indefinite-article stop list `/^(a|an|the|одна|один|jedna)$/i` of
`extractOrganizations`. -/
def orgStopWords : List String := ["a", "an", "the", "одна", "один", "jedna"]

/-- `extractOrganizations` (entity-extractor.ts). -/
def extractOrganizations (rx : RegexMatches) : List ExtractedEntity :=
  (rx.orgRaw.foldl (fun cands raw =>
    let name := normalizeOrgName raw
    if utf16Length name < 2 then cands
    else if orgStopWords.contains (jsToLower name) then cands
    else
      addCandidate cands (jsToLower name)
        { type := .organization, name := name, properties := [], confidence := 7/10 }) []).map
    Prod.snd

/-- `extractLocations` (entity-extractor.ts). -/
def extractLocations (m : Morph) (rx : RegexMatches) : List ExtractedEntity :=
  (rx.locationRaw.foldl (fun cands raw =>
    let rawName := jsTrim raw
    if utf16Length rawName < 2 then cands
    else
      match validateAndNormalizeLocation m rawName with
      | none => cands
      | some name =>
        addCandidate cands (jsToLower name)
          { type := .location, name := name, properties := [], confidence := 7/10 }) []).map
    Prod.snd

/-- `extractConcepts` (entity-extractor.ts): each raw capture is split on
list conjunctions into parts; every part of length ≥ 2 (or the whole name
when no part survives) becomes a concept candidate. -/
def extractConcepts (rx : RegexMatches) : List ExtractedEntity :=
  (rx.conceptRaw.foldl (fun cands raw =>
    let name := jsTrim raw
    if utf16Length name < 2 then cands
    else
      let parts := ((rx.conceptSplit name).map jsTrim).filter (fun p => 2 ≤ utf16Length p)
      (if 0 < parts.length then parts else [name]).foldl (fun cands part =>
        addCandidate cands (jsToLower part)
          { type := .concept, name := part,
            properties := [("category", .str "technology")], confidence := 3/5 }) cands) []).map
    Prod.snd

/-- `extractContactInfo` (entity-extractor.ts): when no person entity was
found but contact info is present, synthesize a low-confidence person
entity from the contact info alone. -/
def extractContactInfo (rx : RegexMatches) (existingEntities : List ExtractedEntity) :
    List ExtractedEntity :=
  if existingEntities.any (fun e => decide (e.type = .person)) then []
  else if rx.phoneCaptures ≠ [] ∨ rx.emailCaptures ≠ [] then
    let properties :=
      (match rx.phoneCaptures.head? with
       | some p => [("phone", PropValue.str (stripPhoneSeparators p))]
       | none => []) ++
      (match rx.emailCaptures.head? with
       | some e => [("email", PropValue.str (jsToLower e))]
       | none => [])
    let name := match rx.emailCaptures.head? with
      | some e =>
        let localPart := ((e.splitOn "@").headD "")
        if localPart = "" then "Contact" else localPart
      | none => "Contact"
    [{ type := .person, name := name, properties := properties, confidence := 1/2 }]
  else []

-- ============================================================================
-- entity-extractor.ts — Main extraction and deduplication
-- ============================================================================

/-- The string rendering of an `EntityType` used in template literals. -/
def entityTypeStr : EntityType → String
  | .person => "person"
  | .organization => "organization"
  | .location => "location"
  | .concept => "concept"

/-- The dedup key of `extractEntities`:
`` `${e.type}:${e.name.toLowerCase()}` ``. -/
def entityKey (e : ExtractedEntity) : String :=
  entityTypeStr e.type ++ ":" ++ jsToLower e.name

/-- The final dedup loop of `extractEntities`: a `seen` key set and a
`unique` output array, keeping the first occurrence of each key. -/
def dedupEntities (entities : List ExtractedEntity) : List ExtractedEntity :=
  (entities.foldl (fun (acc : List String × List ExtractedEntity) e =>
    if acc.1.contains (entityKey e) then acc
    else (acc.1 ++ [entityKey e], acc.2 ++ [e])) ([], [])).2

/-- The concatenated candidate list pushed into `entities` by
`extractEntities` before its final dedup loop. -/
def allCandidates (m : Morph) (rx : RegexMatches) : List ExtractedEntity :=
  let entities := extractPersons m rx ++ extractOrganizations rx
    ++ extractLocations m rx ++ extractConcepts rx
  entities ++ extractContactInfo rx entities

/-- `extractEntities` (entity-extractor.ts, unnamed part_003). -/
def extractEntities (m : Morph) (rx : RegexMatches) : List ExtractedEntity :=
  dedupEntities (allCandidates m rx)

/-- Modelled from the spec: deduplication by (type, lowercased name) in
which "first occurrence wins for conflicting properties, properties from
later duplicates are merged in (union, no overwrite of existing keys)"
(spec.md §3, §4.2).  Compared against the source's dedup loop, which drops
later duplicates. -/
def dedupEntitiesSpecMerge (entities : List ExtractedEntity) : List ExtractedEntity :=
  entities.foldl (fun acc e =>
    if acc.any (fun a => decide (entityKey a = entityKey e)) then
      acc.map (fun a =>
        if entityKey a = entityKey e then
          { a with properties :=
              a.properties ++ e.properties.filter (fun p => (lookupKey p.1 a.properties).isNone) }
        else a)
    else acc ++ [e]) []

-- ============================================================================
-- entity-extractor.ts — Implicit Relation Inference  (part_003 lines 783-852)
-- ============================================================================

/-- JavaScript `Set.prototype.add`: insertion-ordered insert-if-absent. -/
def jsSetAdd (s : List String) (x : String) : List String :=
  if s.contains x then s else s ++ [x]

/-- The string-concatenated pair key
`` `${a.toLowerCase()}-${b.toLowerCase()}` `` of `inferImplicitRelations`. -/
def pairKey (a b : String) : String :=
  jsToLower a ++ "-" ++ jsToLower b

/-- The `explicitPairs` set of `inferImplicitRelations`: both orderings of
every explicit relation's name pair. -/
def explicitPairKeys (explicitRelations : List ExtractedRelation) : List String :=
  explicitRelations.foldl (fun acc r =>
    jsSetAdd (jsSetAdd acc (pairKey r.sourceName r.targetName))
      (pairKey r.targetName r.sourceName)) []

/-- `inferImplicitRelations` (entity-extractor.ts): for every (person,
organization/location/concept) co-occurrence whose pair key is not
explicitly related, emit a low-confidence `related_to` edge flagged
`inferred`.  The source only reads `explicitRelations` (it never writes to
it), which the purity of this embedding mirrors. -/
def inferImplicitRelations (entities : List ExtractedEntity)
    (explicitRelations : List ExtractedRelation) : List ExtractedRelation :=
  let explicitPairs := explicitPairKeys explicitRelations
  let persons := entities.filter (fun e => decide (e.type = .person))
  let orgs := entities.filter (fun e => decide (e.type = .organization))
  let locations := entities.filter (fun e => decide (e.type = .location))
  let concepts := entities.filter (fun e => decide (e.type = .concept))
  persons.flatMap fun person =>
    (orgs.filterMap fun org =>
      if explicitPairs.contains (pairKey person.name org.name) then none
      else some
        { sourceType := .person, sourceName := person.name,
          targetType := .organization, targetName := org.name,
          relationType := .related_to,
          properties := [("inferred", PropValue.bool true)], confidence := 2/5 }) ++
    (locations.filterMap fun loc =>
      if explicitPairs.contains (pairKey person.name loc.name) then none
      else some
        { sourceType := .person, sourceName := person.name,
          targetType := .location, targetName := loc.name,
          relationType := .related_to,
          properties := [("inferred", PropValue.bool true)], confidence := 2/5 }) ++
    (concepts.filterMap fun concept =>
      if explicitPairs.contains (pairKey person.name concept.name) then none
      else some
        { sourceType := .person, sourceName := person.name,
          targetType := .concept, targetName := concept.name,
          relationType := .related_to,
          properties := [("inferred", PropValue.bool true)], confidence := 2/5 })

-- ============================================================================
-- Set-membership lemmas for the explicit-pair key set
-- ============================================================================

lemma mem_jsSetAdd_of_mem {s : List String} {y : String} (x : String) (h : y ∈ s) :
    y ∈ jsSetAdd s x := by
  unfold jsSetAdd
  split
  · exact h
  · exact List.mem_append_left _ h

lemma mem_jsSetAdd_self (s : List String) (x : String) : x ∈ jsSetAdd s x := by
  unfold jsSetAdd
  split
  · next hc => exact List.elem_iff.mp hc
  · exact List.mem_append_right _ (List.mem_singleton.mpr rfl)

lemma mem_explicitPairKeys_foldl (R : List ExtractedRelation) :
    ∀ (acc : List String) (y : String), y ∈ acc →
      y ∈ R.foldl (fun acc r =>
        jsSetAdd (jsSetAdd acc (pairKey r.sourceName r.targetName))
          (pairKey r.targetName r.sourceName)) acc := by
  induction R with
  | nil => intro acc y h; exact h
  | cons r t ih =>
    intro acc y h
    exact ih _ y (mem_jsSetAdd_of_mem _ (mem_jsSetAdd_of_mem _ h))

lemma mem_explicitPairKeys {x : ExtractedRelation} {R : List ExtractedRelation}
    (h : x ∈ R) :
    pairKey x.sourceName x.targetName ∈ explicitPairKeys R ∧
    pairKey x.targetName x.sourceName ∈ explicitPairKeys R := by
  unfold explicitPairKeys
  suffices hgen : ∀ (acc : List String),
      pairKey x.sourceName x.targetName ∈ R.foldl (fun acc r =>
        jsSetAdd (jsSetAdd acc (pairKey r.sourceName r.targetName))
          (pairKey r.targetName r.sourceName)) acc ∧
      pairKey x.targetName x.sourceName ∈ R.foldl (fun acc r =>
        jsSetAdd (jsSetAdd acc (pairKey r.sourceName r.targetName))
          (pairKey r.targetName r.sourceName)) acc from hgen []
  induction R with
  | nil => cases h
  | cons r t ih =>
    intro acc
    rcases List.mem_cons.mp h with hx | hx
    · subst hx
      constructor
      · exact mem_explicitPairKeys_foldl t _ _
          (mem_jsSetAdd_of_mem _ (mem_jsSetAdd_self _ _))
      · exact mem_explicitPairKeys_foldl t _ _ (mem_jsSetAdd_self _ _)
    · exact ih hx _

lemma contains_true_of_mem {l : List String} {a : String} (h : a ∈ l) :
    l.contains a = true :=
  List.elem_iff.mpr h

-- ============================================================================
-- Claim theorem: implicit relation inference (C3)
-- ============================================================================

/-- **C3.** Every relation returned by `inferImplicitRelations E R` has
relation type `related_to`, confidence 0.4, the property bag
`{inferred: true}`, a person source drawn from `E`, and an organization,
location, or concept target drawn from `E` (never a person target); and
its unordered lowercased name pair does not occur as the unordered name
pair of any relation of `R`.  (`R` is only read by the source, never
written — mirrored by the purity of the embedding.) -/
theorem inferImplicitRelations_sound (entities : List ExtractedEntity)
    (explicitRelations : List ExtractedRelation) (r : ExtractedRelation)
    (h : r ∈ inferImplicitRelations entities explicitRelations) :
    r.relationType = .related_to ∧ r.confidence = 2/5 ∧
    r.properties = [("inferred", PropValue.bool true)] ∧
    r.sourceType = .person ∧
    (∃ p ∈ entities, p.type = .person ∧ p.name = r.sourceName) ∧
    (∃ t ∈ entities, t.type = r.targetType ∧ t.name = r.targetName) ∧
    (r.targetType = .organization ∨ r.targetType = .location ∨ r.targetType = .concept) ∧
    r.targetType ≠ .person ∧
    (∀ x ∈ explicitRelations,
      ¬ ((jsToLower x.sourceName = jsToLower r.sourceName ∧
          jsToLower x.targetName = jsToLower r.targetName) ∨
         (jsToLower x.sourceName = jsToLower r.targetName ∧
          jsToLower x.targetName = jsToLower r.sourceName))) := by
  simp only [inferImplicitRelations, List.mem_flatMap, List.mem_append, List.mem_filterMap,
    List.mem_filter, decide_eq_true_eq] at h
  obtain ⟨person, ⟨hpMem, hpType⟩, hbr⟩ := h
  have main : ∃ tgt, tgt ∈ entities ∧ ∃ T,
      (T = EntityType.organization ∨ T = .location ∨ T = .concept) ∧
      tgt.type = T ∧
      (explicitPairKeys explicitRelations).contains (pairKey person.name tgt.name) = false ∧
      r = { sourceType := .person, sourceName := person.name, targetType := T,
            targetName := tgt.name, relationType := .related_to,
            properties := [("inferred", PropValue.bool true)], confidence := 2/5 } := by
    rcases hbr with (⟨t, ⟨htMem, htType⟩, hmk⟩ | ⟨t, ⟨htMem, htType⟩, hmk⟩) | ⟨t, ⟨htMem, htType⟩, hmk⟩
    · split at hmk
      · exact Option.noConfusion hmk
      · next hguard =>
        exact ⟨t, htMem, .organization, Or.inl rfl, htType,
          Bool.eq_false_iff.mpr hguard, (Option.some.inj hmk).symm⟩
    · split at hmk
      · exact Option.noConfusion hmk
      · next hguard =>
        exact ⟨t, htMem, .location, Or.inr (Or.inl rfl), htType,
          Bool.eq_false_iff.mpr hguard, (Option.some.inj hmk).symm⟩
    · split at hmk
      · exact Option.noConfusion hmk
      · next hguard =>
        exact ⟨t, htMem, .concept, Or.inr (Or.inr rfl), htType,
          Bool.eq_false_iff.mpr hguard, (Option.some.inj hmk).symm⟩
  obtain ⟨tgt, htMem, T, hT, htType, hguard, hr⟩ := main
  subst hr
  refine ⟨rfl, rfl, rfl, rfl, ⟨person, hpMem, hpType, rfl⟩, ⟨tgt, htMem, htType, rfl⟩, hT, ?_, ?_⟩
  · rcases hT with h | h | h <;> simp [h]
  · intro x hx hcontra
    have hkeys := mem_explicitPairKeys hx
    rcases hcontra with ⟨h1, h2⟩ | ⟨h1, h2⟩
    · have hpk : pairKey x.sourceName x.targetName = pairKey person.name tgt.name := by
        unfold pairKey
        rw [h1, h2]
      rw [hpk] at hkeys
      rw [contains_true_of_mem hkeys.1] at hguard
      cases hguard
    · have hpk : pairKey x.targetName x.sourceName = pairKey person.name tgt.name := by
        unfold pairKey
        rw [h1, h2]
      rw [hpk] at hkeys
      rw [contains_true_of_mem hkeys.2] at hguard
      cases hguard

set_option maxHeartbeats 1000000 in
/-- Witness for C3: with entities {person "Anna", organization "Acme"} and
no explicit relations, the inferred edge Anna→Acme is `related_to`. -/
theorem inferImplicitRelations_sound_witness :
    ({ sourceType := .person, sourceName := "Anna", targetType := .organization,
       targetName := "Acme", relationType := .related_to,
       properties := [("inferred", PropValue.bool true)],
       confidence := 2/5 } : ExtractedRelation).relationType = RelationType.related_to :=
  (inferImplicitRelations_sound
    [{ type := .person, name := "Anna", properties := [], confidence := 4/5 },
     { type := .organization, name := "Acme", properties := [], confidence := 7/10 }]
    []
    { sourceType := .person, sourceName := "Anna", targetType := .organization,
      targetName := "Acme", relationType := .related_to,
      properties := [("inferred", PropValue.bool true)], confidence := 2/5 }
    (by
      have he : inferImplicitRelations
          [{ type := .person, name := "Anna", properties := [], confidence := 4/5 },
           { type := .organization, name := "Acme", properties := [], confidence := 7/10 }]
          [] =
          [{ sourceType := .person, sourceName := "Anna", targetType := .organization,
             targetName := "Acme", relationType := .related_to,
             properties := [("inferred", PropValue.bool true)], confidence := 2/5 }] := rfl
      rw [he]
      exact List.mem_singleton.mpr rfl)).1

-- ============================================================================
-- Deduplication invariants for extractEntities (C5, C9)
-- ============================================================================

lemma foldl_preserve {β : Type} {γ : Type} (Inv : β → Prop) (f : β → γ → β)
    (hstep : ∀ b c, Inv b → Inv (f b c)) :
    ∀ (l : List γ) (b : β), Inv b → Inv (l.foldl f b) := by
  intro l
  induction l with
  | nil => intro b hb; exact hb
  | cons c t ih => intro b hb; exact ih (f b c) (hstep b c hb)

lemma string_append_left_cancel {s a b : String} (h : s ++ a = s ++ b) : a = b := by
  have hd := congrArg String.data h
  rw [String.data_append, String.data_append] at hd
  have hl := List.append_cancel_left hd
  cases a
  cases b
  exact congrArg String.mk hl

lemma lookupKey_cons {β : Type} (k a : String) (b : β) (t : List (String × β)) :
    lookupKey k ((a, b) :: t) = if a = k then some b else lookupKey k t := rfl

lemma lookupKey_none_iff_keys {β : Type} (k : String) (l : List (String × β)) :
    lookupKey k l = none ↔ k ∉ l.map Prod.fst := by
  induction l with
  | nil => simp [lookupKey]
  | cons p t ih =>
    rcases p with ⟨a, b⟩
    rw [lookupKey_cons]
    by_cases hk : a = k
    · subst hk
      simp
    · rw [if_neg hk]
      simp only [List.map_cons, List.mem_cons]
      constructor
      · intro hn hor
        rcases hor with hor | hor
        · exact hk hor.symm
        · exact (ih.mp hn) hor
      · intro hn
        exact ih.mpr (fun hm => hn (Or.inr hm))

/-- The invariant maintained by the per-type candidate maps: keys are
distinct, and each entry maps the lowercased name of an entity of the
fixed type. -/
def CandInv (T : EntityType) (cands : List (String × ExtractedEntity)) : Prop :=
  (cands.map Prod.fst).Nodup ∧ ∀ p ∈ cands, p.1 = jsToLower p.2.name ∧ p.2.type = T

lemma candInv_nil (T : EntityType) : CandInv T [] := by
  constructor
  · simp
  · intro p hp; cases hp

lemma addCandidate_inv {T : EntityType} {cands : List (String × ExtractedEntity)}
    {key : String} {e : ExtractedEntity} (hk : key = jsToLower e.name) (ht : e.type = T)
    (h : CandInv T cands) : CandInv T (addCandidate cands key e) := by
  obtain ⟨hnd, hall⟩ := h
  unfold addCandidate
  split
  · exact ⟨hnd, hall⟩
  · next habs =>
    have hnone : lookupKey key cands = none := by
      cases hl : lookupKey key cands
      · rfl
      · exact absurd (by rw [hl]; rfl) habs
    have hkey : key ∉ cands.map Prod.fst := (lookupKey_none_iff_keys key cands).mp hnone
    constructor
    · rw [List.map_append]
      refine List.nodup_append.mpr ⟨hnd, by simp, ?_⟩
      intro a ha hb
      simp only [List.map_cons, List.map_nil, List.mem_singleton] at hb
      exact hkey (hb ▸ ha)
    · intro p hp
      rcases List.mem_append.mp hp with hp | hp
      · exact hall p hp
      · rw [List.mem_singleton.mp hp]
        exact ⟨hk, ht⟩

/-- The shape of a finished per-type extractor output: entityKey values are
distinct and every element has the extractor's type. -/
def TypedBlock (T : EntityType) (l : List ExtractedEntity) : Prop :=
  (l.map entityKey).Nodup ∧ ∀ e ∈ l, e.type = T

lemma typedBlock_nil (T : EntityType) : TypedBlock T [] := by
  constructor
  · simp
  · intro e he; cases he

lemma typedBlock_of_candInv {T : EntityType} {cands : List (String × ExtractedEntity)}
    (h : CandInv T cands) : TypedBlock T (cands.map Prod.snd) := by
  obtain ⟨hnd, hall⟩ := h
  constructor
  · have h1 : (cands.map Prod.snd).map entityKey =
        (cands.map Prod.fst).map (fun k => (entityTypeStr T ++ ":") ++ k) := by
      rw [List.map_map, List.map_map]
      apply List.map_congr_left
      intro p hp
      obtain ⟨h1, h2⟩ := hall p hp
      show entityKey p.2 = (entityTypeStr T ++ ":") ++ p.1
      rw [entityKey, h2, h1]
    rw [h1]
    exact List.Nodup.map (fun a b hab => string_append_left_cancel hab) hnd
  · intro e he
    obtain ⟨p, hp, hpe⟩ := List.mem_map.mp he
    exact hpe ▸ (hall p hp).2

lemma attachContactInfo_type (rx : RegexMatches) (e : ExtractedEntity) :
    (attachContactInfo rx e).type = e.type ∧ (attachContactInfo rx e).name = e.name := by
  unfold attachContactInfo
  cases rx.phoneCaptures.head? <;> cases rx.emailCaptures.head? <;>
    cases rx.roleCapture <;> exact ⟨rfl, rfl⟩

lemma entityKey_congr {a b : ExtractedEntity} (ht : a.type = b.type) (hn : a.name = b.name) :
    entityKey a = entityKey b := by
  rw [entityKey, entityKey, ht, hn]

lemma typedBlock_attach_cons {rx : RegexMatches} {f : ExtractedEntity}
    {rest : List ExtractedEntity} (h : TypedBlock .person (f :: rest)) :
    TypedBlock .person (attachContactInfo rx f :: rest) := by
  obtain ⟨hnd, hall⟩ := h
  obtain ⟨hat, han⟩ := attachContactInfo_type rx f
  constructor
  · simp only [List.map_cons] at hnd ⊢
    rw [entityKey_congr hat han]
    exact hnd
  · intro e he
    rcases List.mem_cons.mp he with he | he
    · rw [he, hat]
      exact hall f (List.mem_cons_self f rest)
    · exact hall e (List.mem_cons_of_mem f he)

lemma extractPersons_block (m : Morph) (rx : RegexMatches) :
    TypedBlock .person (extractPersons m rx) := by
  have hinv : CandInv .person (rx.personRaw.foldl (fun cands rawName =>
      match validateAndNormalizePerson m rawName with
      | none => cands
      | some name =>
        addCandidate cands (jsToLower name)
          { type := .person, name := name, properties := [], confidence := 4/5 }) []) := by
    apply foldl_preserve (CandInv .person) _ _ _ _ (candInv_nil .person)
    intro b c hb
    cases hv : validateAndNormalizePerson m c
    · simpa [hv] using hb
    · simp only [hv]
      exact addCandidate_inv rfl rfl hb
  have hblock := typedBlock_of_candInv hinv
  simp only [extractPersons]
  cases hl : (rx.personRaw.foldl (fun cands rawName =>
      match validateAndNormalizePerson m rawName with
      | none => cands
      | some name =>
        addCandidate cands (jsToLower name)
          { type := .person, name := name, properties := [], confidence := 4/5 }) []).map
      Prod.snd with
  | nil => exact typedBlock_nil .person
  | cons f rest =>
    rw [hl] at hblock
    exact typedBlock_attach_cons hblock

lemma extractOrganizations_block (rx : RegexMatches) :
    TypedBlock .organization (extractOrganizations rx) := by
  unfold extractOrganizations
  apply typedBlock_of_candInv
  apply foldl_preserve (CandInv .organization) _ _ _ _ (candInv_nil .organization)
  intro b c hb
  dsimp only
  split
  · exact hb
  · split
    · exact hb
    · exact addCandidate_inv rfl rfl hb

lemma extractLocations_block (m : Morph) (rx : RegexMatches) :
    TypedBlock .location (extractLocations m rx) := by
  unfold extractLocations
  apply typedBlock_of_candInv
  apply foldl_preserve (CandInv .location) _ _ _ _ (candInv_nil .location)
  intro b c hb
  dsimp only
  split
  · exact hb
  · cases hv : validateAndNormalizeLocation m (jsTrim c)
    · simpa [hv] using hb
    · simp only [hv]
      exact addCandidate_inv rfl rfl hb

lemma extractConcepts_block (rx : RegexMatches) :
    TypedBlock .concept (extractConcepts rx) := by
  unfold extractConcepts
  apply typedBlock_of_candInv
  apply foldl_preserve (CandInv .concept) _ _ _ _ (candInv_nil .concept)
  intro b c hb
  dsimp only
  split
  · exact hb
  · apply foldl_preserve (CandInv .concept) _ _ _ _ hb
    intro b' c' hb'
    exact addCandidate_inv rfl rfl hb'

lemma extractContactInfo_types (rx : RegexMatches) (es : List ExtractedEntity) :
    (∀ e ∈ extractContactInfo rx es, e.type = .person) ∧
    ((extractContactInfo rx es).map entityKey).Nodup := by
  unfold extractContactInfo
  split
  · exact ⟨fun e he => absurd he (List.not_mem_nil e), by simp⟩
  · split
    · constructor
      · intro e he
        rw [List.mem_singleton.mp he]
      · simp
    · exact ⟨fun e he => absurd he (List.not_mem_nil e), by simp⟩

lemma extractContactInfo_empty_of_person {rx : RegexMatches} {es : List ExtractedEntity}
    (h : ∃ e ∈ es, e.type = .person) : extractContactInfo rx es = [] := by
  obtain ⟨e, he, ht⟩ := h
  unfold extractContactInfo
  rw [if_pos (List.any_eq_true.mpr ⟨e, he, decide_eq_true ht⟩)]

/-- The first character of an `entityKey`, discriminating the four types. -/
def typeHeadChar : EntityType → Char
  | .person => 'p'
  | .organization => 'o'
  | .location => 'l'
  | .concept => 'c'

lemma entityKey_head (e : ExtractedEntity) :
    (entityKey e).data.head? = some (typeHeadChar e.type) := by
  obtain ⟨t, n, pr, c⟩ := e
  cases t <;>
    · show ((entityTypeStr _ ++ ":" ++ jsToLower n)).data.head? = _
      rw [String.data_append]
      rfl

lemma entityKey_type_ne {a b : ExtractedEntity} (h : a.type ≠ b.type) :
    entityKey a ≠ entityKey b := by
  intro heq
  apply h
  have hh := congrArg (fun s => s.data.head?) heq
  simp only [entityKey_head] at hh
  have hc : typeHeadChar a.type = typeHeadChar b.type := Option.some.inj hh
  revert hc
  cases a.type <;> cases b.type <;> simp [typeHeadChar]

lemma blocks_disjoint {T₁ T₂ : EntityType} {l₁ l₂ : List ExtractedEntity} (h : T₁ ≠ T₂)
    (hb₁ : ∀ e ∈ l₁, e.type = T₁) (hb₂ : ∀ e ∈ l₂, e.type = T₂) :
    (l₁.map entityKey).Disjoint (l₂.map entityKey) := by
  intro k hk1 hk2
  obtain ⟨a, ha, hak⟩ := List.mem_map.mp hk1
  obtain ⟨b, hb, hbk⟩ := List.mem_map.mp hk2
  exact entityKey_type_ne (by rw [hb₁ a ha, hb₂ b hb]; exact h) (hak.trans hbk.symm)

lemma four_blocks_nodup {P O L C : List ExtractedEntity}
    (hP : TypedBlock .person P) (hO : TypedBlock .organization O)
    (hL : TypedBlock .location L) (hC : TypedBlock .concept C) :
    ((P ++ O ++ L ++ C).map entityKey).Nodup := by
  simp only [List.map_append]
  rw [List.nodup_append, List.nodup_append, List.nodup_append]
  refine ⟨⟨⟨hP.1, hO.1, blocks_disjoint (by decide) hP.2 hO.2⟩, hL.1, ?_⟩, hC.1, ?_⟩
  · intro k hk
    rcases List.mem_append.mp hk with hk | hk
    · exact blocks_disjoint (by decide) hP.2 hL.2 hk
    · exact blocks_disjoint (by decide) hO.2 hL.2 hk
  · intro k hk
    rcases List.mem_append.mp hk with hk | hk
    · rcases List.mem_append.mp hk with hk | hk
      · exact blocks_disjoint (by decide) hP.2 hC.2 hk
      · exact blocks_disjoint (by decide) hO.2 hC.2 hk
    · exact blocks_disjoint (by decide) hL.2 hC.2 hk

lemma allCandidates_keys_nodup (m : Morph) (rx : RegexMatches) :
    ((allCandidates m rx).map entityKey).Nodup := by
  have hP := extractPersons_block m rx
  have hO := extractOrganizations_block rx
  have hL := extractLocations_block m rx
  have hC := extractConcepts_block rx
  have hfour := four_blocks_nodup hP hO hL hC
  simp only [allCandidates]
  by_cases hE : extractPersons m rx = []
  · have hct := extractContactInfo_types rx (extractPersons m rx ++ extractOrganizations rx ++
      extractLocations m rx ++ extractConcepts rx)
    rw [List.map_append, List.nodup_append]
    refine ⟨hfour, hct.2, ?_⟩
    intro k hk hk2
    obtain ⟨a, ha, hak⟩ := List.mem_map.mp hk
    obtain ⟨b, hb, hbk⟩ := List.mem_map.mp hk2
    have hbt : b.type = .person := hct.1 b hb
    have hat : a.type ≠ b.type := by
      rw [hbt]
      rcases List.mem_append.mp ha with ha' | ha'
      · rcases List.mem_append.mp ha' with ha'' | ha''
        · rcases List.mem_append.mp ha'' with ha3 | ha3
          · rw [hE] at ha3
            cases ha3
          · rw [hO.2 a ha3]
            decide
        · rw [hL.2 a ha'']
          decide
      · rw [hC.2 a ha']
        decide
    exact entityKey_type_ne hat (hak.trans hbk.symm)
  · obtain ⟨p, hp⟩ := List.exists_mem_of_ne_nil _ hE
    have hcontact : extractContactInfo rx (extractPersons m rx ++ extractOrganizations rx ++
        extractLocations m rx ++ extractConcepts rx) = [] :=
      extractContactInfo_empty_of_person
        ⟨p, List.mem_append_left _ (List.mem_append_left _ (List.mem_append_left _ hp)),
          hP.2 p hp⟩
    rw [hcontact, List.append_nil]
    exact hfour

lemma contains_false_of_not_mem {l : List String} {a : String} (h : a ∉ l) :
    l.contains a = false := by
  cases hc : l.contains a
  · rfl
  · exact absurd (List.elem_iff.mp hc) h

lemma dedupEntities_foldl_eq (l : List ExtractedEntity) :
    ∀ (seen : List String) (uniq : List ExtractedEntity),
      (∀ e ∈ l, entityKey e ∉ seen) → (l.map entityKey).Nodup →
      l.foldl (fun (acc : List String × List ExtractedEntity) e =>
        if acc.1.contains (entityKey e) then acc
        else (acc.1 ++ [entityKey e], acc.2 ++ [e])) (seen, uniq) =
      (seen ++ l.map entityKey, uniq ++ l) := by
  induction l with
  | nil => intro seen uniq _ _; simp
  | cons e t ih =>
    intro seen uniq hns hnd
    have hc : seen.contains (entityKey e) = false :=
      contains_false_of_not_mem (hns e (List.mem_cons_self e t))
    simp only [List.foldl_cons, hc, Bool.false_eq_true, if_false]
    have hstep := ih (seen ++ [entityKey e]) (uniq ++ [e])
      (fun e' he' => by
        intro hmem
        rcases List.mem_append.mp hmem with hmem | hmem
        · exact hns e' (List.mem_cons_of_mem e he') hmem
        · have heq : entityKey e' = entityKey e := List.mem_singleton.mp hmem
          have hker : entityKey e ∉ t.map entityKey := (List.nodup_cons.mp
            (by simpa using hnd)).1
          exact hker (heq ▸ List.mem_map_of_mem entityKey he'))
      ((List.nodup_cons.mp (by simpa using hnd)).2)
    rw [hstep]
    simp

lemma dedupEntities_of_nodup {l : List ExtractedEntity}
    (h : (l.map entityKey).Nodup) : dedupEntities l = l := by
  unfold dedupEntities
  rw [dedupEntities_foldl_eq l [] [] (fun e _ => List.not_mem_nil (entityKey e)) h]
  simp

lemma specMerge_foldl_eq (l : List ExtractedEntity) :
    ∀ (acc : List ExtractedEntity),
      ((acc ++ l).map entityKey).Nodup →
      l.foldl (fun acc e =>
        if acc.any (fun a => decide (entityKey a = entityKey e)) then
          acc.map (fun a =>
            if entityKey a = entityKey e then
              { a with properties := a.properties ++
                  e.properties.filter (fun p => (lookupKey p.1 a.properties).isNone) }
            else a)
        else acc ++ [e]) acc = acc ++ l := by
  induction l with
  | nil => intro acc _; simp
  | cons e t ih =>
    intro acc hnd
    have hke : entityKey e ∉ acc.map entityKey := by
      intro hmem
      rw [List.map_append, List.nodup_append] at hnd
      exact hnd.2.2 hmem (List.mem_map_of_mem entityKey (List.mem_cons_self e t))
    have hany : acc.any (fun a => decide (entityKey a = entityKey e)) = false := by
      cases ha : acc.any (fun a => decide (entityKey a = entityKey e))
      · rfl
      · obtain ⟨a, haMem, haEq⟩ := List.any_eq_true.mp ha
        exact absurd ((of_decide_eq_true haEq) ▸ List.mem_map_of_mem entityKey haMem) hke
    simp only [List.foldl_cons, hany, Bool.false_eq_true, if_false]
    have hstep := ih (acc ++ [e]) (by simpa using hnd)
    rw [hstep]
    simp

lemma specMerge_of_nodup {l : List ExtractedEntity}
    (h : (l.map entityKey).Nodup) : dedupEntitiesSpecMerge l = l := by
  unfold dedupEntitiesSpecMerge
  have := specMerge_foldl_eq l [] (by simpa using h)
  simpa using this

lemma extractEntities_eq_allCandidates (m : Morph) (rx : RegexMatches) :
    extractEntities m rx = allCandidates m rx := by
  unfold extractEntities
  exact dedupEntities_of_nodup (allCandidates_keys_nodup m rx)

-- ============================================================================
-- Claim theorems: extractEntities deduplication and idempotence (C5, C9)
-- ============================================================================

/-- **C5.** `extractEntities` emits at most one entity per
(type, lowercased name) key — its output keys are `Nodup` — and it agrees
with the spec's merge-style dedup (first-seen name and property bag win,
later duplicates' properties are unioned in without overwriting) applied
to the full candidate list. -/
theorem extractEntities_dedup (m : Morph) (rx : RegexMatches) :
    ((extractEntities m rx).map entityKey).Nodup ∧
    extractEntities m rx = dedupEntitiesSpecMerge (allCandidates m rx) := by
  have hnd := allCandidates_keys_nodup m rx
  have h1 := extractEntities_eq_allCandidates m rx
  constructor
  · rw [h1]
    exact hnd
  · rw [h1, specMerge_of_nodup hnd]

/-- **C9.** `extractEntities` is deterministic for a fixed text (the regex
match results are a function of the text) provided the morphology
provider's readiness state agrees between the two calls, and its dedup key
is stable: re-deduplicating the output changes nothing. -/
theorem extractEntities_idempotent (m₁ m₂ : Morph) (rx : RegexMatches) (h : m₁ = m₂) :
    extractEntities m₁ rx = extractEntities m₂ rx ∧
    dedupEntities (extractEntities m₁ rx) = extractEntities m₂ rx := by
  subst h
  refine ⟨rfl, ?_⟩
  have hnd : ((extractEntities m₁ rx).map entityKey).Nodup := by
    rw [extractEntities_eq_allCandidates m₁ rx]
    exact allCandidates_keys_nodup m₁ rx
  exact dedupEntities_of_nodup hnd

/-- Witness for C9: a concrete morphology provider and match oracle,
applied with the reflexivity of the readiness state. -/
theorem extractEntities_idempotent_witness :
    extractEntities ⟨false, fun s => s, fun _ => false⟩
        ⟨["Anna"], [], [], [], [], [], none, fun _ => []⟩ =
      extractEntities ⟨false, fun s => s, fun _ => false⟩
        ⟨["Anna"], [], [], [], [], [], none, fun _ => []⟩ ∧
    dedupEntities (extractEntities ⟨false, fun s => s, fun _ => false⟩
        ⟨["Anna"], [], [], [], [], [], none, fun _ => []⟩) =
      extractEntities ⟨false, fun s => s, fun _ => false⟩
        ⟨["Anna"], [], [], [], [], [], none, fun _ => []⟩ :=
  extractEntities_idempotent ⟨false, fun s => s, fun _ => false⟩
    ⟨false, fun s => s, fun _ => false⟩
    ⟨["Anna"], [], [], [], [], [], none, fun _ => []⟩ rfl

-- ============================================================================
-- hybrid-search.ts — Data model
-- ============================================================================

/-- The payload stored with each Qdrant point (qdrant-client.ts contract,
spec §6: text, category, importance, language, creation timestamp, and a
list of entity identifiers). -/
structure QdrantPayload : Type where
  text : String
  category : MemoryCategory
  importance : ℚ
  language : SupportedLanguage
  createdAt : Int
  entityIds : Option (List String)
deriving DecidableEq, Repr

/-- A Qdrant point: identifier plus payload. -/
structure QdrantPoint : Type where
  id : String
  payload : QdrantPayload
deriving DecidableEq, Repr

/-- `QdrantSearchResult`: a point with its similarity score. -/
structure QdrantSearchResult : Type where
  point : QdrantPoint
  score : ℚ
deriving DecidableEq, Repr

/-- The `{id, name, type}` entity summaries attached by enrichment. -/
structure EntityInfo : Type where
  id : String
  name : String
  type : String
deriving DecidableEq, Repr

/-- The `memory` part of `HybridSearchResult` (hybrid-search.ts). -/
structure HybridMemory : Type where
  id : String
  text : String
  category : MemoryCategory
  importance : ℚ
  language : SupportedLanguage
  createdAt : Int
  entities : Option (List EntityInfo)
deriving DecidableEq, Repr

/-- The provenance tag `"vector" | "graph" | "both"`. -/
inductive HybridSource : Type
  | vector
  | graph
  | both
deriving DecidableEq, Repr

/-- `HybridSearchResult` (hybrid-search.ts). -/
structure HybridSearchResult : Type where
  memory : HybridMemory
  vectorScore : ℚ
  graphScore : ℚ
  combinedScore : ℚ
  source : HybridSource
deriving DecidableEq, Repr

/-- `HybridSearchOptions` (hybrid-search.ts); absent fields are `none`,
destructuring defaults are applied by `search`. -/
structure HybridSearchOptions : Type where
  limit : Option Nat
  minScore : Option ℚ
  hybridWeight : Option ℚ
  includeGraph : Option Bool
  category : Option MemoryCategory
  language : Option SupportedLanguage
deriving DecidableEq, Repr

/-- The vector-store collaborator surface used by `HybridSearch`
(qdrant-client.ts is I/O plumbing; a call that may throw is an
`Except Unit` value). -/
structure QdrantMemoryClient : Type where
  search : List ℚ → Nat → ℚ → Option MemoryCategory → Option SupportedLanguage →
    Except Unit (List QdrantSearchResult)
  getById : String → Except Unit (Option QdrantPoint)

/-- The graph-store collaborator surface used by `HybridSearch`. -/
structure NebulaMemoryClient : Type where
  findRelatedMemories : List String → Except Unit (List String)

-- ============================================================================
-- hybrid-search.ts — Result fusion (search, lines 55-152)
-- ============================================================================

/-- JavaScript `Map.prototype.set` on an insertion-ordered association
list: overwrite in place when the key exists, append otherwise. -/
def mapSet {β : Type} (m : List (String × β)) (k : String) (v : β) : List (String × β) :=
  if (lookupKey k m).isSome then m.map (fun p => if p.1 = k then (k, v) else p)
  else m ++ [(k, v)]

/-- The entry written by the vector-results loop of `search`
(lines 87-105): graph score 0.5 and provenance `both` when the id is also
in the graph membership set, else graph score 0 and provenance `vector`. -/
def vectorEntry (graphMemoryIds : List String) (vr : QdrantSearchResult) : HybridSearchResult :=
  let id := vr.point.id
  let isInGraph := graphMemoryIds.contains id
  { memory := { id := id, text := vr.point.payload.text, category := vr.point.payload.category,
                importance := vr.point.payload.importance,
                language := vr.point.payload.language,
                createdAt := vr.point.payload.createdAt, entities := none },
    vectorScore := vr.score,
    graphScore := if isInGraph then 1/2 else 0,
    combinedScore := 0,
    source := if isInGraph then .both else .vector }

/-- The entry written by the graph-only loop of `search` (lines 108-132):
vector score 0, graph score 0.7, provenance `graph`. -/
def graphEntry (graphId : String) (point : QdrantPoint) : HybridSearchResult :=
  { memory := { id := graphId, text := point.payload.text, category := point.payload.category,
                importance := point.payload.importance, language := point.payload.language,
                createdAt := point.payload.createdAt, entities := none },
    vectorScore := 0,
    graphScore := 7/10,
    combinedScore := 0,
    source := .graph }

/-- One step of the vector-results loop: `resultsMap.set(vr.point.id, ...)`. -/
def vectorStep (graphMemoryIds : List String) (m : List (String × HybridSearchResult))
    (vr : QdrantSearchResult) : List (String × HybridSearchResult) :=
  mapSet m vr.point.id (vectorEntry graphMemoryIds vr)

/-- One step of the graph-only loop: skip ids already present, fetch the
point by id inside `try { .. } catch { /* skip */ }`, and insert when
found. -/
def graphStep (qdrant : QdrantMemoryClient) (m : List (String × HybridSearchResult))
    (graphId : String) : List (String × HybridSearchResult) :=
  if (lookupKey graphId m).isSome then m
  else
    match qdrant.getById graphId with
    | .error _ => m
    | .ok none => m
    | .ok (some point) => mapSet m graphId (graphEntry graphId point)

/-- Steps 3 of `search` (lines 83-132): build the results map from the
vector candidates and the graph membership set. -/
def combineResults (qdrant : QdrantMemoryClient) (vectorResults : List QdrantSearchResult)
    (graphMemoryIds : List String) : List (String × HybridSearchResult) :=
  graphMemoryIds.foldl (graphStep qdrant) (vectorResults.foldl (vectorStep graphMemoryIds) [])

/-- `HybridSearch.search` (hybrid-search.ts): vector search, optional
graph-membership lookup, fusion, combined scoring, stable descending sort,
truncation.  The two collaborator awaits outside any try/catch propagate
their failures. -/
def HybridSearch.search (qdrant : QdrantMemoryClient) (nebula : NebulaMemoryClient)
    (vector : List ℚ) (_query : String) (entityNames : List String)
    (options : HybridSearchOptions) : Except Unit (List HybridSearchResult) :=
  let limit := options.limit.getD 5
  let minScore := options.minScore.getD (3/10)
  let hybridWeight := options.hybridWeight.getD (7/10)
  let includeGraph := options.includeGraph.getD true
  match qdrant.search vector (limit * 2) minScore options.category options.language with
  | .error e => .error e
  | .ok vectorResults =>
    match (if includeGraph = true ∧ 0 < entityNames.length
           then nebula.findRelatedMemories entityNames else .ok []) with
    | .error e => .error e
    | .ok graphIds =>
      let graphMemoryIds := graphIds.foldl jsSetAdd []
      let resultsMap := combineResults qdrant vectorResults graphMemoryIds
      let results := (resultsMap.map Prod.snd).map (fun r =>
        { r with combinedScore := r.vectorScore * hybridWeight +
            r.graphScore * (1 - hybridWeight) + r.memory.importance * (1/10) })
      let sorted := results.mergeSort (fun a b => decide (b.combinedScore ≤ a.combinedScore))
      .ok (sorted.take limit)

-- ============================================================================
-- hybrid-search.ts — Entity enrichment (enrichWithEntities, lines 157-197)
-- ============================================================================

/-- The JavaScript `\w` character class. -/
def wordChar (c : Char) : Bool :=
  decide (('A' ≤ c ∧ c ≤ 'Z') ∨ ('a' ≤ c ∧ c ≤ 'z') ∨ ('0' ≤ c ∧ c ≤ '9') ∨ c = '_')

/-- `name.replace(/\b\w/g, (c) => c.toUpperCase())` over a character list:
uppercase every word character at a word boundary. -/
def titlecaseChars (prev : Option Char) : List Char → List Char
  | [] => []
  | c :: rest =>
    let boundary := match prev with
      | none => true
      | some p => !(wordChar p)
    (if wordChar c && boundary then jsToUpperChar c else c) :: titlecaseChars (some c) rest

/-- `name.replace(/\b\w/g, (c) => c.toUpperCase())`. -/
def titlecaseWords (s : String) : String :=
  ⟨titlecaseChars none s.data⟩

/-- The per-entity-id parsing of `enrichWithEntities` (lines 168-178):
split on underscores into `type_name`, join the name parts with spaces,
and titlecase the display name. -/
def parseEntityId (entityId : String) : Option EntityInfo :=
  let parts := entityId.splitOn "_"
  if 2 ≤ parts.length then
    let type := parts.headD ""
    let name := (String.intercalate " " (parts.drop 1)).replace "_" " "
    some { id := entityId, type := type, name := titlecaseWords name }
  else none

/-- The loop body of `enrichWithEntities` for a single result: fetch the
point inside `try { .. } catch { keep original }`; attach parsed entity
summaries only when the payload carries a non-empty entity-id list. -/
def enrichOne (qdrant : QdrantMemoryClient) (r : HybridSearchResult) : HybridSearchResult :=
  match qdrant.getById r.memory.id with
  | .error _ => r
  | .ok none => r
  | .ok (some point) =>
    match point.payload.entityIds with
    | none => r
    | some entityIds =>
      if 0 < entityIds.length then
        { r with memory := { r.memory with
            entities := some (entityIds.filterMap parseEntityId) } }
      else r

/-- `HybridSearch.enrichWithEntities` (hybrid-search.ts): per-result
best-effort enrichment; a failed or empty lookup keeps the original
result. -/
def HybridSearch.enrichWithEntities (qdrant : QdrantMemoryClient)
    (results : List HybridSearchResult) : List HybridSearchResult :=
  results.map (enrichOne qdrant)

-- ============================================================================
-- Frame lemmas for enrichment (C4, C10)
-- ============================================================================

lemma mem_zip_map {α : Type} (f : α → α) :
    ∀ (l : List α) (p : α × α), p ∈ l.zip (l.map f) → p.2 = f p.1 := by
  intro l
  induction l with
  | nil => intro p hp; cases hp
  | cons a t ih =>
    intro p hp
    simp only [List.map_cons, List.zip_cons_cons] at hp
    rcases List.mem_cons.mp hp with hp | hp
    · rw [hp]
    · exact ih p hp

lemma enrichOne_frame (qdrant : QdrantMemoryClient) (r : HybridSearchResult) :
    (enrichOne qdrant r).memory.id = r.memory.id ∧
    (enrichOne qdrant r).memory.text = r.memory.text ∧
    (enrichOne qdrant r).memory.category = r.memory.category ∧
    (enrichOne qdrant r).memory.importance = r.memory.importance ∧
    (enrichOne qdrant r).memory.language = r.memory.language ∧
    (enrichOne qdrant r).memory.createdAt = r.memory.createdAt ∧
    (enrichOne qdrant r).vectorScore = r.vectorScore ∧
    (enrichOne qdrant r).graphScore = r.graphScore ∧
    (enrichOne qdrant r).combinedScore = r.combinedScore ∧
    (enrichOne qdrant r).source = r.source := by
  unfold enrichOne
  repeat' split
  all_goals exact ⟨rfl, rfl, rfl, rfl, rfl, rfl, rfl, rfl, rfl, rfl⟩

lemma enrichOne_error (qdrant : QdrantMemoryClient) (r : HybridSearchResult)
    (h : qdrant.getById r.memory.id = .error ()) : enrichOne qdrant r = r := by
  unfold enrichOne
  rw [h]

lemma enrichOne_noEntityIds (qdrant : QdrantMemoryClient) (r : HybridSearchResult)
    (point : QdrantPoint) (h : qdrant.getById r.memory.id = .ok (some point))
    (hids : point.payload.entityIds = none ∨ point.payload.entityIds = some []) :
    enrichOne qdrant r = r := by
  unfold enrichOne
  rw [h]
  dsimp only
  rcases hids with hids | hids <;> (rw [hids]; try simp)

-- ============================================================================
-- Claim theorem: enrichment frame property (C10)
-- ============================================================================

/-- **C10.** `enrichWithEntities` returns a list of exactly the same
length and order as its input; positionally, every field other than the
optional `memory.entities` attachment is unchanged, and an element whose
fetched payload has no entity identifiers is returned unchanged. -/
theorem enrichWithEntities_frame (qdrant : QdrantMemoryClient)
    (results : List HybridSearchResult) :
    (HybridSearch.enrichWithEntities qdrant results).length = results.length ∧
    ∀ p ∈ results.zip (HybridSearch.enrichWithEntities qdrant results),
      p.2.memory.id = p.1.memory.id ∧ p.2.memory.text = p.1.memory.text ∧
      p.2.memory.category = p.1.memory.category ∧
      p.2.memory.importance = p.1.memory.importance ∧
      p.2.memory.language = p.1.memory.language ∧
      p.2.memory.createdAt = p.1.memory.createdAt ∧
      p.2.vectorScore = p.1.vectorScore ∧ p.2.graphScore = p.1.graphScore ∧
      p.2.combinedScore = p.1.combinedScore ∧ p.2.source = p.1.source ∧
      (∀ point, qdrant.getById p.1.memory.id = .ok (some point) →
        (point.payload.entityIds = none ∨ point.payload.entityIds = some []) →
        p.2 = p.1) := by
  constructor
  · exact List.length_map results (enrichOne qdrant)
  · intro p hp
    have hpe : p.2 = enrichOne qdrant p.1 := mem_zip_map (enrichOne qdrant) results p hp
    rw [hpe]
    obtain ⟨h1, h2, h3, h4, h5, h6, h7, h8, h9, h10⟩ := enrichOne_frame qdrant p.1
    exact ⟨h1, h2, h3, h4, h5, h6, h7, h8, h9, h10,
      fun point hpt hids => enrichOne_noEntityIds qdrant p.1 point hpt hids⟩

/-- Witness for C10: a one-element result list under a collaborator whose
lookups find nothing keeps its length. -/
theorem enrichWithEntities_frame_witness :
    (HybridSearch.enrichWithEntities ⟨fun _ _ _ _ _ => .ok [], fun _ => .ok none⟩
      [{ memory := { id := "a", text := "", category := .other, importance := 0,
                     language := .en, createdAt := 0, entities := none },
         vectorScore := 0, graphScore := 0, combinedScore := 0,
         source := .vector }]).length =
    [({ memory := { id := "a", text := "", category := .other, importance := 0,
                    language := .en, createdAt := 0, entities := none },
        vectorScore := 0, graphScore := 0, combinedScore := 0,
        source := .vector } : HybridSearchResult)].length :=
  (enrichWithEntities_frame ⟨fun _ _ _ _ _ => .ok [], fun _ => .ok none⟩
    [{ memory := { id := "a", text := "", category := .other, importance := 0,
                   language := .en, createdAt := 0, entities := none },
       vectorScore := 0, graphScore := 0, combinedScore := 0,
       source := .vector }]).1

-- ============================================================================
-- Claim C4: local catching is only partial — counterexample and amendment
-- ============================================================================

/-- **C4 counterexample.** A thrown graph-membership lookup is *not*
caught by `search`: with a collaborator whose `findRelatedMemories`
throws, `search` returns the error to its caller, contradicting the claim
that such failures are degraded to an empty set and never propagated. -/
theorem search_propagates_graph_failure :
    HybridSearch.search
      ⟨fun _ _ _ _ _ => .ok [], fun _ => .ok none⟩
      ⟨fun _ => .error ()⟩
      [] "query" ["entity"]
      ⟨none, none, none, none, none, none⟩ = .error () := rfl

lemma lookupKey_mapReplace_ne {β : Type} {k k' : String} (v : β)
    (m : List (String × β)) (h : k' ≠ k) :
    lookupKey k' (m.map (fun p => if p.1 = k then (k, v) else p)) = lookupKey k' m := by
  induction m with
  | nil => rfl
  | cons p t ih =>
    rcases p with ⟨a, b⟩
    show lookupKey k' ((if a = k then (k, v) else (a, b)) ::
      t.map (fun p => if p.1 = k then (k, v) else p)) = lookupKey k' ((a, b) :: t)
    by_cases hak : a = k
    · rw [if_pos hak, lookupKey_cons, lookupKey_cons]
      rw [if_neg (fun he => h (he.symm)), if_neg (fun he => h (he.symm.trans hak))]
      exact ih
    · rw [if_neg hak, lookupKey_cons, lookupKey_cons]
      by_cases hak' : a = k'
      · rw [if_pos hak', if_pos hak']
      · rw [if_neg hak', if_neg hak']
        exact ih

lemma lookupKey_append_single_ne {β : Type} {k k' : String} (v : β)
    (m : List (String × β)) (h : k' ≠ k) :
    lookupKey k' (m ++ [(k, v)]) = lookupKey k' m := by
  induction m with
  | nil =>
    show lookupKey k' [(k, v)] = none
    rw [lookupKey_cons, if_neg (fun he => h he.symm)]
    rfl
  | cons p t ih =>
    rcases p with ⟨a, b⟩
    rw [List.cons_append, lookupKey_cons, lookupKey_cons]
    by_cases hak' : a = k'
    · rw [if_pos hak', if_pos hak']
    · rw [if_neg hak', if_neg hak']
      exact ih

lemma lookupKey_mapSet_ne {β : Type} {k k' : String} (v : β)
    (m : List (String × β)) (h : k' ≠ k) :
    lookupKey k' (mapSet m k v) = lookupKey k' m := by
  unfold mapSet
  split
  · exact lookupKey_mapReplace_ne v m h
  · exact lookupKey_append_single_ne v m h

lemma lookup_vectorFold_none {gids : List String} {id : String}
    (vrs : List QdrantSearchResult) (hvr : ∀ vr ∈ vrs, vr.point.id ≠ id) :
    ∀ (m : List (String × HybridSearchResult)), lookupKey id m = none →
      lookupKey id (vrs.foldl (vectorStep gids) m) = none := by
  induction vrs with
  | nil => intro m hm; exact hm
  | cons vr t ih =>
    intro m hm
    simp only [List.foldl_cons]
    apply ih (fun vr' hvr' => hvr vr' (List.mem_cons_of_mem vr hvr'))
    unfold vectorStep
    rw [lookupKey_mapSet_ne _ m (fun hne => hvr vr (List.mem_cons_self vr t) hne.symm)]
    exact hm

lemma lookup_graphFold_none_of_error {qdrant : QdrantMemoryClient} {id : String}
    (herr : qdrant.getById id = .error ())
    (gids : List String) :
    ∀ (m : List (String × HybridSearchResult)), lookupKey id m = none →
      lookupKey id (gids.foldl (graphStep qdrant) m) = none := by
  induction gids with
  | nil => intro m hm; exact hm
  | cons g t ih =>
    intro m hm
    simp only [List.foldl_cons]
    apply ih
    unfold graphStep
    by_cases hg : g = id
    · subst hg
      rw [hm]
      simp only [Option.isSome_none, Bool.false_eq_true, if_false]
      rw [herr]
      exact hm
    · split
      · exact hm
      · cases qdrant.getById g with
        | error e => exact hm
        | ok o =>
          cases o with
          | none => exact hm
          | some point =>
            rw [lookupKey_mapSet_ne _ m (fun hne => hg hne.symm)]
            exact hm

/-- **C4 amended.** Failures of the per-result vector-collaborator fetch
are caught locally: during enrichment a failed lookup keeps the original
result, and during the graph-only merge step a failed fetch leaves the id
out of the results map; `enrichWithEntities` never throws.  But a failure
of the graph-membership lookup itself is *not* caught inside `search` and
propagates to its caller. -/
theorem search_enrich_local_catch :
    (∀ (qdrant : QdrantMemoryClient) (results : List HybridSearchResult)
      (p : HybridSearchResult × HybridSearchResult),
      p ∈ results.zip (HybridSearch.enrichWithEntities qdrant results) →
      qdrant.getById p.1.memory.id = .error () → p.2 = p.1) ∧
    (∀ (qdrant : QdrantMemoryClient) (vectorResults : List QdrantSearchResult)
      (graphMemoryIds : List String) (id : String),
      (∀ vr ∈ vectorResults, vr.point.id ≠ id) →
      qdrant.getById id = .error () →
      lookupKey id (combineResults qdrant vectorResults graphMemoryIds) = none) ∧
    (∀ (qdrant : QdrantMemoryClient) (nebula : NebulaMemoryClient) (vector : List ℚ)
      (query : String) (entityNames : List String) (options : HybridSearchOptions)
      (vrs : List QdrantSearchResult),
      qdrant.search vector (options.limit.getD 5 * 2) (options.minScore.getD (3/10))
        options.category options.language = .ok vrs →
      options.includeGraph.getD true = true → 0 < entityNames.length →
      nebula.findRelatedMemories entityNames = .error () →
      HybridSearch.search qdrant nebula vector query entityNames options = .error ()) := by
  refine ⟨?_, ?_, ?_⟩
  · intro qdrant results p hp herr
    have hpe : p.2 = enrichOne qdrant p.1 := mem_zip_map (enrichOne qdrant) results p hp
    rw [hpe]
    exact enrichOne_error qdrant p.1 herr
  · intro qdrant vectorResults graphMemoryIds id hvr herr
    unfold combineResults
    exact lookup_graphFold_none_of_error herr graphMemoryIds _
      (lookup_vectorFold_none vectorResults hvr [] rfl)
  · intro qdrant nebula vector query entityNames options vrs hq hg1 hg2 hn
    simp only [HybridSearch.search]
    rw [hq, if_pos ⟨hg1, hg2⟩, hn]

/-- Witness for C4's amended claim: an enrichment lookup that throws
keeps the original result unmodified. -/
theorem search_enrich_local_catch_witness :
    (({ memory := { id := "a", text := "", category := .other, importance := 0,
                    language := .en, createdAt := 0, entities := none },
        vectorScore := 0, graphScore := 0, combinedScore := 0,
        source := .vector } : HybridSearchResult),
     ({ memory := { id := "a", text := "", category := .other, importance := 0,
                    language := .en, createdAt := 0, entities := none },
        vectorScore := 0, graphScore := 0, combinedScore := 0,
        source := .vector } : HybridSearchResult)).2 =
    (({ memory := { id := "a", text := "", category := .other, importance := 0,
                    language := .en, createdAt := 0, entities := none },
        vectorScore := 0, graphScore := 0, combinedScore := 0,
        source := .vector } : HybridSearchResult),
     ({ memory := { id := "a", text := "", category := .other, importance := 0,
                    language := .en, createdAt := 0, entities := none },
        vectorScore := 0, graphScore := 0, combinedScore := 0,
        source := .vector } : HybridSearchResult)).1 :=
  search_enrich_local_catch.1 ⟨fun _ _ _ _ _ => .ok [], fun _ => .error ()⟩
    [{ memory := { id := "a", text := "", category := .other, importance := 0,
                   language := .en, createdAt := 0, entities := none },
       vectorScore := 0, graphScore := 0, combinedScore := 0, source := .vector }]
    _ (List.mem_singleton.mpr rfl) rfl

-- ============================================================================
-- Claim C1: the combined-score formula and the worked scenario
-- ============================================================================

lemma mergeSort_pair {α : Type} (le : α → α → Bool) (a b : α) :
    List.mergeSort [a, b] le = if le a b then [a, b] else [b, a] := by
  simp [List.mergeSort, List.merge]

/-- The vector collaborator of the spec's worked scenario: the similarity
search returns `{id: "a", score: 0.9}` with stored importance 0.5, and the
by-id fetch finds `"b"` with stored importance 0.2. -/
def scenarioQdrant : QdrantMemoryClient where
  search := fun _ _ _ _ _ => .ok
    [{ point := { id := "a",
                  payload := { text := "memory a", category := .fact, importance := 1/2,
                               language := .en, createdAt := 0, entityIds := none } },
       score := 9/10 }]
  getById := fun id =>
    if id = "b" then
      .ok (some { id := "b",
                  payload := { text := "memory b", category := .fact, importance := 1/5,
                               language := .en, createdAt := 0, entityIds := none } })
    else .ok none

/-- The graph collaborator of the worked scenario: membership set `{"b"}`. -/
def scenarioNebula : NebulaMemoryClient where
  findRelatedMemories := fun _ => .ok ["b"]

/-- The caller options of the worked scenario: `hybridWeight = 0.7`,
everything else defaulted. -/
def scenarioOptions : HybridSearchOptions :=
  ⟨none, none, some (7/10), none, none, none⟩

/-- The expected first-ranked result of the worked scenario:
`"a"` with combined score 0.9×0.7 + 0×0.3 + 0.5×0.1 = 0.68. -/
def scenarioResultA : HybridSearchResult :=
  { memory := { id := "a", text := "memory a", category := .fact, importance := 1/2,
                language := .en, createdAt := 0, entities := none },
    vectorScore := 9/10, graphScore := 0,
    combinedScore := 9/10 * (7/10) + 0 * (1 - 7/10) + 1/2 * (1/10),
    source := .vector }

/-- The expected second-ranked result of the worked scenario:
`"b"` with combined score 0×0.7 + 0.7×0.3 + 0.2×0.1 = 0.23. -/
def scenarioResultB : HybridSearchResult :=
  { memory := { id := "b", text := "memory b", category := .fact, importance := 1/5,
                language := .en, createdAt := 0, entities := none },
    vectorScore := 0, graphScore := 7/10,
    combinedScore := 0 * (7/10) + 7/10 * (1 - 7/10) + 1/5 * (1/10),
    source := .graph }

/-- **C1.** Every result emitted by `search` carries
`combinedScore = vectorScore × hybridWeight + graphScore × (1 − hybridWeight)
+ importance × 0.1` with `hybridWeight` the caller-supplied option
(default 0.7); and on the spec's worked scenario — vector list
`[{id:"a", score:0.9}]`, graph set `{"b"}`, `hybridWeight = 0.7`,
importance 0.5 for `"a"` and 0.2 for the fetched `"b"` — result `"a"` gets
combined score 0.68, result `"b"` gets 0.23, and `"a"` is ranked first. -/
theorem search_combinedScore (qdrant : QdrantMemoryClient) (nebula : NebulaMemoryClient)
    (vector : List ℚ) (query : String) (entityNames : List String)
    (options : HybridSearchOptions) (results : List HybridSearchResult)
    (h : HybridSearch.search qdrant nebula vector query entityNames options = .ok results) :
    (∀ r ∈ results,
      r.combinedScore = r.vectorScore * (options.hybridWeight.getD (7/10)) +
        r.graphScore * (1 - options.hybridWeight.getD (7/10)) +
        r.memory.importance * (1/10)) ∧
    (HybridSearch.search scenarioQdrant scenarioNebula [] "query" ["entity"] scenarioOptions =
      .ok [scenarioResultA, scenarioResultB] ∧
     scenarioResultA.memory.id = "a" ∧ scenarioResultA.combinedScore = 68/100 ∧
     scenarioResultB.memory.id = "b" ∧ scenarioResultB.combinedScore = 23/100) := by
  constructor
  · intro r hr
    simp only [HybridSearch.search] at h
    rcases hq : qdrant.search vector (options.limit.getD 5 * 2) (options.minScore.getD (3/10))
        options.category options.language with e | vrs
    · rw [hq] at h
      exact Except.noConfusion h
    · rw [hq] at h
      rcases hg : (if options.includeGraph.getD true = true ∧ 0 < entityNames.length
          then nebula.findRelatedMemories entityNames else .ok []) with e | gids
      · rw [hg] at h
        exact Except.noConfusion h
      · rw [hg] at h
        injection h with h
        subst h
        have hr1 := List.mem_of_mem_take hr
        have hr2 := List.mem_mergeSort.mp hr1
        obtain ⟨r0, _, hre⟩ := List.mem_map.mp hr2
        rw [← hre]
  · refine ⟨?_, rfl, by norm_num [scenarioResultA], rfl, by norm_num [scenarioResultB]⟩
    have h1 : HybridSearch.search scenarioQdrant scenarioNebula [] "query" ["entity"]
        scenarioOptions =
        .ok ((List.mergeSort [scenarioResultA, scenarioResultB]
          (fun a b => decide (b.combinedScore ≤ a.combinedScore))).take 5) := rfl
    rw [h1, mergeSort_pair]
    have hle : scenarioResultB.combinedScore ≤ scenarioResultA.combinedScore := by
      norm_num [scenarioResultA, scenarioResultB]
    rw [decide_eq_true hle, if_pos rfl]
    rfl

/-- Witness for C1: a single-result run under a minimal collaborator pair
satisfies the combined-score formula. -/
theorem search_combinedScore_witness :
    ({ memory := { id := "a", text := "t", category := .fact, importance := 1/2,
                   language := .en, createdAt := 0, entities := none },
       vectorScore := 9/10, graphScore := 0,
       combinedScore := 9/10 * (7/10) + 0 * (1 - 7/10) + 1/2 * (1/10),
       source := .vector } : HybridSearchResult).combinedScore =
      ({ memory := { id := "a", text := "t", category := .fact, importance := 1/2,
                     language := .en, createdAt := 0, entities := none },
         vectorScore := 9/10, graphScore := 0,
         combinedScore := 9/10 * (7/10) + 0 * (1 - 7/10) + 1/2 * (1/10),
         source := .vector } : HybridSearchResult).vectorScore *
        ((⟨none, none, none, none, none, none⟩ : HybridSearchOptions).hybridWeight.getD (7/10)) +
      ({ memory := { id := "a", text := "t", category := .fact, importance := 1/2,
                     language := .en, createdAt := 0, entities := none },
         vectorScore := 9/10, graphScore := 0,
         combinedScore := 9/10 * (7/10) + 0 * (1 - 7/10) + 1/2 * (1/10),
         source := .vector } : HybridSearchResult).graphScore *
        (1 - (⟨none, none, none, none, none, none⟩ : HybridSearchOptions).hybridWeight.getD (7/10)) +
      ({ memory := { id := "a", text := "t", category := .fact, importance := 1/2,
                     language := .en, createdAt := 0, entities := none },
         vectorScore := 9/10, graphScore := 0,
         combinedScore := 9/10 * (7/10) + 0 * (1 - 7/10) + 1/2 * (1/10),
         source := .vector } : HybridSearchResult).memory.importance * (1/10) := by
  have h : HybridSearch.search
      ⟨fun _ _ _ _ _ => .ok
        [{ point := { id := "a",
                      payload := { text := "t", category := .fact, importance := 1/2,
                                   language := .en, createdAt := 0, entityIds := none } },
           score := 9/10 }],
       fun _ => .ok none⟩
      ⟨fun _ => .ok []⟩
      [] "q" [] ⟨none, none, none, none, none, none⟩ =
      .ok [{ memory := { id := "a", text := "t", category := .fact, importance := 1/2,
                         language := .en, createdAt := 0, entities := none },
             vectorScore := 9/10, graphScore := 0,
             combinedScore := 9/10 * (7/10) + 0 * (1 - 7/10) + 1/2 * (1/10),
             source := .vector }] := by
    have h1 : HybridSearch.search
        ⟨fun _ _ _ _ _ => .ok
          [{ point := { id := "a",
                        payload := { text := "t", category := .fact, importance := 1/2,
                                     language := .en, createdAt := 0, entityIds := none } },
             score := 9/10 }],
         fun _ => .ok none⟩
        ⟨fun _ => .ok []⟩
        [] "q" [] ⟨none, none, none, none, none, none⟩ =
        .ok ((List.mergeSort
          [{ memory := { id := "a", text := "t", category := .fact, importance := 1/2,
                         language := .en, createdAt := 0, entities := none },
             vectorScore := 9/10, graphScore := 0,
             combinedScore := 9/10 * (7/10) + 0 * (1 - 7/10) + 1/2 * (1/10),
             source := .vector }]
          (fun a b => decide (b.combinedScore ≤ a.combinedScore))).take 5) := rfl
    rw [h1, List.mergeSort_singleton]
    rfl
  exact (search_combinedScore _ _ [] "q" [] ⟨none, none, none, none, none, none⟩ _ h).1 _
    (List.mem_singleton.mpr rfl)

-- ============================================================================
-- Map lemmas for the fusion step (C2)
-- ============================================================================

lemma isSome_false_eq_none {β : Type} {o : Option β} (h : o.isSome = false) : o = none := by
  cases o
  · rfl
  · cases h

lemma lookupKey_mem {β : Type} {k : String} {v : β} :
    ∀ {m : List (String × β)}, lookupKey k m = some v → (k, v) ∈ m := by
  intro m
  induction m with
  | nil => intro h; cases h
  | cons p t ih =>
    rcases p with ⟨a, b⟩
    rw [lookupKey_cons]
    by_cases hak : a = k
    · rw [if_pos hak]
      intro h
      have hab : (a, b) = (k, v) := by
        rw [hak, Option.some.inj h]
      rw [← hab]
      exact List.mem_cons_self (a, b) t
    · rw [if_neg hak]
      intro h
      exact List.mem_cons_of_mem _ (ih h)

lemma lookupKey_isSome_iff_keys {β : Type} (k : String) (m : List (String × β)) :
    (lookupKey k m).isSome = true ↔ k ∈ m.map Prod.fst := by
  constructor
  · intro h
    by_contra hk
    rw [(lookupKey_none_iff_keys k m).mpr hk] at h
    cases h
  · intro h
    cases ho : lookupKey k m
    · exact absurd h ((lookupKey_none_iff_keys k m).mp ho)
    · rfl

lemma keys_mapReplace {β : Type} (m : List (String × β)) (k : String) (v : β) :
    (m.map (fun p => if p.1 = k then (k, v) else p)).map Prod.fst = m.map Prod.fst := by
  rw [List.map_map]
  apply List.map_congr_left
  intro p _
  show (if p.1 = k then (k, v) else p).1 = p.1
  split
  · next hpk => exact hpk.symm
  · rfl

lemma mem_keys_mapSet_self {β : Type} (m : List (String × β)) (k : String) (v : β) :
    k ∈ (mapSet m k v).map Prod.fst := by
  unfold mapSet
  split
  · next hs =>
    rw [keys_mapReplace]
    exact (lookupKey_isSome_iff_keys k m).mp hs
  · rw [List.map_append]
    exact List.mem_append_right _ (List.mem_singleton.mpr rfl)

lemma mem_keys_mapSet_mono {β : Type} {m : List (String × β)} {k' : String} (k : String) (v : β)
    (h : k' ∈ m.map Prod.fst) : k' ∈ (mapSet m k v).map Prod.fst := by
  unfold mapSet
  split
  · rw [keys_mapReplace]
    exact h
  · rw [List.map_append]
    exact List.mem_append_left _ h

lemma mem_mapSet {β : Type} {m : List (String × β)} {k : String} {v : β}
    {p : String × β} (h : p ∈ mapSet m k v) : p ∈ m ∨ p = (k, v) := by
  unfold mapSet at h
  split at h
  · obtain ⟨q, hq, hqe⟩ := List.mem_map.mp h
    by_cases hqk : q.1 = k
    · right
      rw [← hqe, if_pos hqk]
    · left
      rw [← hqe, if_neg hqk]
      exact hq
  · rcases List.mem_append.mp h with h | h
    · exact Or.inl h
    · exact Or.inr (List.mem_singleton.mp h)

lemma mem_mapSet_of_mem_absent {β : Type} {m : List (String × β)} {k : String} {v : β}
    {p : String × β} (hp : p ∈ m) (habs : lookupKey k m = none) : p ∈ mapSet m k v := by
  unfold mapSet
  rw [habs]
  simp only [Option.isSome_none, Bool.false_eq_true, if_false]
  exact List.mem_append_left _ hp

-- ============================================================================
-- Fold lemmas for the fusion step (C2)
-- ============================================================================

lemma vectorFold_keys_mono {gids : List String} {k : String}
    (vrs : List QdrantSearchResult) :
    ∀ (m : List (String × HybridSearchResult)), k ∈ m.map Prod.fst →
      k ∈ ((vrs.foldl (vectorStep gids) m).map Prod.fst) := by
  induction vrs with
  | nil => intro m hm; exact hm
  | cons vr t ih =>
    intro m hm
    exact ih _ (mem_keys_mapSet_mono _ _ hm)

lemma vectorFold_emits (gids : List String) {vr : QdrantSearchResult}
    (vrs : List QdrantSearchResult) (hvr : vr ∈ vrs) :
    ∀ (m : List (String × HybridSearchResult)),
      vr.point.id ∈ ((vrs.foldl (vectorStep gids) m).map Prod.fst) := by
  induction vrs with
  | nil => cases hvr
  | cons vr' t ih =>
    intro m
    rcases List.mem_cons.mp hvr with hvr0 | hvr0
    · subst hvr0
      exact vectorFold_keys_mono t _ (mem_keys_mapSet_self m vr.point.id _)
    · exact ih hvr0 _

lemma vectorFold_sound {gids : List String} (vrs : List QdrantSearchResult) :
    ∀ (m : List (String × HybridSearchResult)) (p : String × HybridSearchResult),
      p ∈ vrs.foldl (vectorStep gids) m →
      p ∈ m ∨ ∃ vr ∈ vrs, p = (vr.point.id, vectorEntry gids vr) := by
  induction vrs with
  | nil => intro m p hp; exact Or.inl hp
  | cons vr t ih =>
    intro m p hp
    rcases ih _ p hp with hp' | ⟨vr', hvr', hpe⟩
    · rcases mem_mapSet hp' with hp'' | hp''
      · exact Or.inl hp''
      · exact Or.inr ⟨vr, List.mem_cons_self vr t, hp''⟩
    · exact Or.inr ⟨vr', List.mem_cons_of_mem vr hvr', hpe⟩

lemma graphFold_keys_mono {qdrant : QdrantMemoryClient} {k : String}
    (gids : List String) :
    ∀ (m : List (String × HybridSearchResult)), k ∈ m.map Prod.fst →
      k ∈ ((gids.foldl (graphStep qdrant) m).map Prod.fst) := by
  induction gids with
  | nil => intro m hm; exact hm
  | cons g t ih =>
    intro m hm
    apply ih
    unfold graphStep
    split
    · exact hm
    · cases qdrant.getById g with
      | error e => exact hm
      | ok o =>
        cases o with
        | none => exact hm
        | some point => exact mem_keys_mapSet_mono _ _ hm

lemma graphFold_mem_mono {qdrant : QdrantMemoryClient}
    {p : String × HybridSearchResult} (gids : List String) :
    ∀ (m : List (String × HybridSearchResult)), p ∈ m →
      p ∈ gids.foldl (graphStep qdrant) m := by
  induction gids with
  | nil => intro m hm; exact hm
  | cons g t ih =>
    intro m hm
    apply ih
    unfold graphStep
    split
    · exact hm
    · next hs =>
      have hnone : lookupKey g m = none :=
        isSome_false_eq_none (by
          cases hb : (lookupKey g m).isSome
          · rfl
          · exact absurd hb hs)
      cases qdrant.getById g with
      | error e => exact hm
      | ok o =>
        cases o with
        | none => exact hm
        | some point => exact mem_mapSet_of_mem_absent hm hnone

lemma graphFold_sound {qdrant : QdrantMemoryClient} (gids : List String) :
    ∀ (m : List (String × HybridSearchResult)) (p : String × HybridSearchResult),
      p ∈ gids.foldl (graphStep qdrant) m →
      p ∈ m ∨ (lookupKey p.1 m = none ∧ p.1 ∈ gids ∧
        ∃ point, qdrant.getById p.1 = .ok (some point) ∧ p.2 = graphEntry p.1 point) := by
  induction gids with
  | nil => intro m p hp; exact Or.inl hp
  | cons g t ih =>
    intro m p hp
    rcases ih _ p hp with hp' | ⟨hnone, hmem, point, hget, hshape⟩
    · -- p came from the head step
      revert hp'
      unfold graphStep
      split
      · exact Or.inl
      · next hs =>
        have hnoneg : lookupKey g m = none :=
          isSome_false_eq_none (by
            cases hb : (lookupKey g m).isSome
            · rfl
            · exact absurd hb hs)
        cases hget : qdrant.getById g with
        | error e => exact Or.inl
        | ok o =>
          cases o with
          | none => exact Or.inl
          | some point =>
            intro hp'
            rcases mem_mapSet hp' with hp'' | hp''
            · exact Or.inl hp''
            · refine Or.inr ⟨?_, ?_, point, ?_, ?_⟩
              · rw [hp'']
                exact hnoneg
              · rw [hp'']
                exact List.mem_cons_self g t
              · rw [hp'']
                exact hget
              · rw [hp'']
      -- the key of p in the original map
    · -- p was inserted further down the fold; transport the lookup over the head step
      have hstep : lookupKey p.1 m = none := by
        revert hnone
        unfold graphStep
        split
        · exact id
        · next hs =>
          have hnoneg : lookupKey g m = none :=
            isSome_false_eq_none (by
              cases hb : (lookupKey g m).isSome
              · rfl
              · exact absurd hb hs)
          cases qdrant.getById g with
          | error e => exact id
          | ok o =>
            cases o with
            | none => exact id
            | some point =>
              intro hnone
              dsimp only at hnone
              by_cases hpg : p.1 = g
              · exfalso
                apply (lookupKey_none_iff_keys p.1 _).mp hnone
                rw [hpg]
                exact mem_keys_mapSet_self m g (graphEntry g point)
              · rw [lookupKey_mapSet_ne _ m hpg] at hnone
                exact hnone
      exact Or.inr ⟨hstep, List.mem_cons_of_mem g hmem, point, hget, hshape⟩

lemma graphFold_emits {qdrant : QdrantMemoryClient} {id : String} {point : QdrantPoint}
    (hget : qdrant.getById id = .ok (some point)) (gids : List String) (hid : id ∈ gids) :
    ∀ (m : List (String × HybridSearchResult)), lookupKey id m = none →
      (id, graphEntry id point) ∈ gids.foldl (graphStep qdrant) m := by
  induction gids with
  | nil => cases hid
  | cons g t ih =>
    intro m hnone
    by_cases hg : g = id
    · subst hg
      simp only [List.foldl_cons]
      apply graphFold_mem_mono
      unfold graphStep
      rw [hnone]
      simp only [Option.isSome_none, Bool.false_eq_true, if_false]
      rw [hget]
      unfold mapSet
      rw [hnone]
      simp only [Option.isSome_none, Bool.false_eq_true, if_false]
      exact List.mem_append_right _ (List.mem_singleton.mpr rfl)
    · have hid' : id ∈ t := by
        rcases List.mem_cons.mp hid with h | h
        · exact absurd h.symm hg
        · exact h
      simp only [List.foldl_cons]
      apply ih hid'
      unfold graphStep
      split
      · exact hnone
      · cases qdrant.getById g with
        | error e => exact hnone
        | ok o =>
          cases o with
          | none => exact hnone
          | some point' =>
            rw [lookupKey_mapSet_ne _ m (fun he => hg he.symm)]
            exact hnone

-- ============================================================================
-- Claim theorem: fusion scores and provenance (C2)
-- ============================================================================

/-- **C2.** In the fusion step of `search`: an identifier present in both
the vector candidate list and the graph membership set is emitted with
graph score 0.5 and provenance `both`; an identifier present only in the
vector list is emitted with graph score 0 and provenance `vector`; an
identifier present only in the graph set is fetched by id from the vector
collaborator and, if found, emitted with vector score 0, graph score 0.7,
and provenance `graph`.  Stated as: every map entry has one of these
shapes, every vector candidate's id is emitted, and every fetchable
graph-only id is emitted with the graph-only scores. -/
theorem combineResults_provenance (qdrant : QdrantMemoryClient)
    (vectorResults : List QdrantSearchResult) (graphMemoryIds : List String) :
    (∀ p ∈ combineResults qdrant vectorResults graphMemoryIds,
      (∃ vr ∈ vectorResults, vr.point.id = p.1 ∧
        ((p.1 ∈ graphMemoryIds ∧ p.2.graphScore = 1/2 ∧ p.2.source = .both) ∨
         (p.1 ∉ graphMemoryIds ∧ p.2.graphScore = 0 ∧ p.2.source = .vector))) ∨
      (p.1 ∈ graphMemoryIds ∧ (∀ vr ∈ vectorResults, vr.point.id ≠ p.1) ∧
        ∃ point, qdrant.getById p.1 = .ok (some point) ∧
          p.2.vectorScore = 0 ∧ p.2.graphScore = 7/10 ∧ p.2.source = .graph)) ∧
    (∀ vr ∈ vectorResults, ∃ r,
      (vr.point.id, r) ∈ combineResults qdrant vectorResults graphMemoryIds) ∧
    (∀ id ∈ graphMemoryIds, (∀ vr ∈ vectorResults, vr.point.id ≠ id) →
      ∀ point, qdrant.getById id = .ok (some point) →
        (id, graphEntry id point) ∈ combineResults qdrant vectorResults graphMemoryIds) := by
  refine ⟨?_, ?_, ?_⟩
  · intro p hp
    unfold combineResults at hp
    rcases graphFold_sound graphMemoryIds _ p hp with hp' | ⟨hnone, hmem, point, hget, hshape⟩
    · rcases vectorFold_sound vectorResults _ p hp' with hnil | ⟨vr, hvr, hpe⟩
      · cases hnil
      · left
        refine ⟨vr, hvr, ?_, ?_⟩
        · rw [hpe]
        · cases hc : graphMemoryIds.contains vr.point.id
          · have hnm : vr.point.id ∉ graphMemoryIds := fun hmem => by
              rw [contains_true_of_mem hmem] at hc
              cases hc
            right
            refine ⟨?_, ?_, ?_⟩
            · rw [hpe]
              exact hnm
            · rw [hpe]
              show (vectorEntry graphMemoryIds vr).graphScore = 0
              simp [vectorEntry, hc, hnm]
            · rw [hpe]
              show (vectorEntry graphMemoryIds vr).source = .vector
              simp [vectorEntry, hc, hnm]
          · have hm : vr.point.id ∈ graphMemoryIds := List.elem_iff.mp hc
            left
            refine ⟨?_, ?_, ?_⟩
            · rw [hpe]
              exact hm
            · rw [hpe]
              show (vectorEntry graphMemoryIds vr).graphScore = 1/2
              simp [vectorEntry, hc, hm]
            · rw [hpe]
              show (vectorEntry graphMemoryIds vr).source = .both
              simp [vectorEntry, hc, hm]
    · right
      refine ⟨hmem, ?_, point, hget, ?_, ?_, ?_⟩
      · intro vr hvr hne
        have hkey := vectorFold_emits graphMemoryIds vectorResults hvr
          ([] : List (String × HybridSearchResult))
        rw [hne] at hkey
        exact (lookupKey_none_iff_keys p.1 _).mp hnone hkey
      · rw [hshape]
        rfl
      · rw [hshape]
        rfl
      · rw [hshape]
        rfl
  · intro vr hvr
    have hkey : vr.point.id ∈
        ((combineResults qdrant vectorResults graphMemoryIds).map Prod.fst) := by
      unfold combineResults
      exact graphFold_keys_mono graphMemoryIds _ (vectorFold_emits graphMemoryIds vectorResults hvr [])
    obtain ⟨q, hq, hqe⟩ := List.mem_map.mp hkey
    refine ⟨q.2, ?_⟩
    rw [show (vr.point.id, q.2) = q from ?_]
    · exact hq
    · rw [← hqe]
  · intro id hid hnvr point hget
    unfold combineResults
    apply graphFold_emits hget graphMemoryIds hid
    rw [lookupKey_none_iff_keys]
    intro hkey
    obtain ⟨q, hq, hqe⟩ := List.mem_map.mp hkey
    rcases vectorFold_sound vectorResults _ q hq with hnil | ⟨vr, hvr, hpe⟩
    · cases hnil
    · apply hnvr vr hvr
      rw [← hqe, hpe]

/-- Witness for C2: with a one-element vector list and graph set `{"b"}`,
the vector candidate `"a"` is emitted in the fusion map. -/
theorem combineResults_provenance_witness :
    ∃ r, ("a", r) ∈ combineResults
      ⟨fun _ _ _ _ _ => .ok [], fun _ => .ok none⟩
      [{ point := { id := "a",
                    payload := { text := "t", category := .fact, importance := 1/2,
                                 language := .en, createdAt := 0, entityIds := none } },
         score := 9/10 }]
      ["b"] :=
  (combineResults_provenance
    ⟨fun _ _ _ _ _ => .ok [], fun _ => .ok none⟩
    [{ point := { id := "a",
                  payload := { text := "t", category := .fact, importance := 1/2,
                               language := .en, createdAt := 0, entityIds := none } },
       score := 9/10 }]
    ["b"]).2.1
    { point := { id := "a",
                 payload := { text := "t", category := .fact, importance := 1/2,
                              language := .en, createdAt := 0, entityIds := none } },
      score := 9/10 }
    (List.mem_singleton.mpr rfl)

end OpenClaw
